import Mathlib

/-!
# c-ray: tile scheduling and material shading

A shallow embedding of `src/datatypes/tile.c`, `src/datatypes/material.c` and the keyboard
handler of `src/utils/ui.c`.

Conventions of the embedding
* C `int` values, the image width and height among them, are integers (`Int`); `/` and `%` on
  `int` are the truncating `Int.tdiv` and `Int.tmod`. In `quantizeImage` every `int` sum and
  product is reduced to 32 bits by `wrapInt`, so a result outside `[-2^31, 2^31)` wraps around
  as the machine instructions make it. In `getTile` and the reordering functions the sums
  and differences are counters and indices that stay between `-1` and `tileCount` while
  every access is inside the array, so they are taken exactly.
* A C array is a `List`; in `getTile` and the reordering functions a read or write outside
  the array is `none`.
* A `for (int i = 0; i < n; i++)` loop is `forLoop`/`forLoopM` running `n.toNat` times.
* `float` values are elements of an arbitrary linearly ordered field `F`, so rounding is left
  out; `sqrt`, the random generator and the texture lookup are parameters (`Env`).
* The macro `min` of `includes.h` is the minimum of two integers.
* `unsigned int` values are natural numbers below `2^32`, with every operation taken modulo
  `2^32`.
* A loop that need not end (`randomInUnitSphere`, `rand_interval`) takes a number of rounds
  `fuel` and reports when that is used up.
* C does not fix the order in which the arguments of a call are evaluated; where the
  arguments draw from the generator (`randomInUnitSphere`) the order is a parameter
  (`ArgOrder`), so every theorem holds for each of the six orders.
-/

namespace CRay

/-! ## Loops -/

/-- The loop `for (i = 0; i < n; i++) s = body i s`. -/
def forLoop {σ : Type} (body : Nat → σ → σ) : Nat → σ → σ
  | 0, s => s
  | n + 1, s => body n (forLoop body n s)

/-- The loop `for (i = 0; i < n; i++)` whose body may fail (an access outside an array). -/
def forLoopM {σ : Type} (body : Nat → σ → Option σ) : Nat → σ → Option σ
  | 0, s => some s
  | n + 1, s => (forLoopM body n s).bind (body n)

/-! ## Tiles (`tile.h`, `tile.c`) -/

/-- The `struct intCoord` of pixel coordinates. -/
structure IntCoord where
  x : Int
  y : Int
deriving DecidableEq

/-- The `struct renderTile`; the field `end` is spelled `end_`. -/
structure RenderTile where
  width : Int
  height : Int
  begin : IntCoord
  end_ : IntCoord
  completedSamples : Int
  isRendering : Bool
  tileNum : Int
deriving DecidableEq

/-- A tile as `calloc` and `memset(&tile, 0, sizeof(tile))` leave it. -/
def zeroTile : RenderTile :=
  { width := 0, height := 0, begin := ⟨0, 0⟩, end_ := ⟨0, 0⟩,
    completedSamples := 0, isRendering := false, tileNum := 0 }

/-- Read `tiles[i]` for a C `int` index; `none` outside the array. -/
def readTile (tiles : List RenderTile) (i : Int) : Option RenderTile :=
  if 0 ≤ i then tiles[i.toNat]? else none

/-- The sanity check on one tile dimension, lines 53 to 56 of `tile.c`:
`if (t >= dim) t = dim; if (t <= 0) t = 1;`. -/
def clampTileSize (dim t : Int) : Int :=
  let t := if t ≥ dim then dim else t
  if t ≤ 0 then 1 else t

/-- The value that a 32-bit `int` holds after an arithmetic operation with the exact result
`i`: `i` itself inside `[-2^31, 2^31)`, and outside of it the number of that range that
differs from `i` by a multiple of `2^32`, as two's complement addition and multiplication
leave it. -/
def wrapInt (i : Int) : Int := (i + 2147483648) % 4294967296 - 2147483648

/-- The number of tiles along one dimension, lines 58 to 62 of `tile.c`:
`n = dim / t; n = (dim % t) != 0 ? n + 1 : n`. -/
def tilesAlong (dim t : Int) : Int :=
  let n := dim.tdiv t
  if dim.tmod t ≠ 0 then wrapInt (n + 1) else n

/-- The state of the two nested loops of `quantizeImage`. -/
structure QuantState where
  renderTiles : List RenderTile
  tileCount : Int

/-- The body of the inner loop of `quantizeImage`, lines 72 to 90 of `tile.c`; the loop
counters `x` and `y` stay below `tilesX` and `tilesY`. -/
def quantizeBody (imageWidth imageHeight tileWidth tileHeight tilesX : Int) (y x : Nat)
    (s : QuantState) : QuantState :=
  let tile : RenderTile :=
    { width := tileWidth
      height := tileHeight
      begin := ⟨wrapInt (x * tileWidth), wrapInt (y * tileHeight)⟩
      end_ := ⟨min (wrapInt (wrapInt (x + 1) * tileWidth)) imageWidth,
               min (wrapInt (wrapInt (y + 1) * tileHeight)) imageHeight⟩
      completedSamples := 1
      isRendering := false
      tileNum := s.tileCount }
  { renderTiles := s.renderTiles.set (wrapInt ((x : Int) + wrapInt (y * tilesX))).toNat tile
    tileCount := wrapInt (s.tileCount + 1) }

/-- The function `quantizeImage` of `tile.c`: the tile array it allocates and fills, and the
count it returns. The array has `tilesX*tilesY` entries, the `int` product. -/
def quantizeImage (imageWidth imageHeight tileWidth tileHeight : Int) : List RenderTile × Int :=
  let tileWidth := clampTileSize imageWidth tileWidth
  let tileHeight := clampTileSize imageHeight tileHeight
  let tilesX := tilesAlong imageWidth tileWidth
  let tilesY := tilesAlong imageHeight tileHeight
  let renderTiles := List.replicate (wrapInt (tilesX * tilesY)).toNat zeroTile
  let s := forLoop (fun y s =>
      forLoop (fun x s => quantizeBody imageWidth imageHeight tileWidth tileHeight tilesX y x s)
        tilesX.toNat s)
    tilesY.toNat ⟨renderTiles, 0⟩
  (s.renderTiles, s.tileCount)

/-- The pixel `(px, py)` lies in the rectangle `[begin, end)` of the tile. -/
def RenderTile.contains (t : RenderTile) (px py : Int) : Prop :=
  t.begin.x ≤ px ∧ px < t.end_.x ∧ t.begin.y ≤ py ∧ py < t.end_.y

instance (t : RenderTile) (px py : Int) : Decidable (t.contains px py) := by
  unfold RenderTile.contains; infer_instance

/-- The area `(end.x - begin.x) * (end.y - begin.y)` of the rectangle of the tile. -/
def RenderTile.area (t : RenderTile) : Int :=
  (t.end_.x - t.begin.x) * (t.end_.y - t.begin.y)

/-- The tile that `quantizeImage` stores at row `y`, column `x`, with clamped tile sizes. -/
def gridTile (W H tw th : Int) (X : Nat) (i : Nat) : RenderTile :=
  { width := tw
    height := th
    begin := ⟨((i % X : Nat) : Int) * tw, ((i / X : Nat) : Int) * th⟩
    end_ := ⟨min ((((i % X : Nat) : Int) + 1) * tw) W, min ((((i / X : Nat) : Int) + 1) * th) H⟩
    completedSamples := 1
    isRendering := false
    tileNum := i }

/-- The loop invariant of `quantizeImage`: `k` tiles have been written, in scan order. -/
def QuantInv (W H tw th : Int) (X N k : Nat) (s : QuantState) : Prop :=
  s.tileCount = k ∧ s.renderTiles.length = N ∧
    ∀ j < k, s.renderTiles[j]? = some (gridTile W H tw th X j)

/-- Write `tiles[i] = t` for a C `int` index; `none` outside the array. -/
def writeTile (tiles : List RenderTile) (i : Int) (t : RenderTile) : Option (List RenderTile) :=
  if 0 ≤ i ∧ i.toNat < tiles.length then some (tiles.set i.toNat t) else none

/-! ### `getTile` -/

/-- The fields of `struct renderer` that `getTile` reads and writes. -/
structure Renderer where
  renderTiles : List RenderTile
  tileCount : Int
  finishedTileCount : Int

/-- The tile `getTile` returns when no work is left: all zero, `tileNum = -1`. -/
def noTile : RenderTile := { zeroTile with tileNum := -1 }

/-- The function `getTile` of `tile.c`, as one step between taking and releasing `tileMutex`:
the tile returned and the renderer it leaves. `none` when `renderTiles` is read outside the
array. -/
def getTile (r : Renderer) : Option (RenderTile × Renderer) :=
  let tile := noTile
  if r.finishedTileCount < r.tileCount then
    match readTile r.renderTiles r.finishedTileCount with
    | none => none
    | some stored =>
      let tile := stored
      let renderTiles :=
        r.renderTiles.set r.finishedTileCount.toNat { stored with isRendering := true }
      let tile := { tile with tileNum := r.finishedTileCount }
      some (tile, { r with renderTiles := renderTiles
                           finishedTileCount := r.finishedTileCount + 1 })
  else
    some (tile, r)

/-- The tiles returned by `n` calls of `getTile` made one after the other, in call order, and
the renderer after the last call. -/
def getTiles : Nat → Renderer → Option (List RenderTile × Renderer)
  | 0, r => some ([], r)
  | n + 1, r =>
    match getTile r with
    | none => none
    | some (tile, r') => (getTiles n r').map (fun p => (tile :: p.1, p.2))

/-! ### Reordering -/

/-- The loop state of `reorderTopToBottom`. -/
structure TopToBottomState where
  endIndex : Int
  tempArray : List RenderTile

/-- The function `reorderTopToBottom` of `tile.c`; `none` when an access leaves an array. -/
def reorderTopToBottom (tiles : List RenderTile) (tileCount : Int) : Option (List RenderTile) :=
  let endIndex := tileCount - 1
  let tempArray := List.replicate tileCount.toNat zeroTile
  (forLoopM (fun i (s : TopToBottomState) => do
      let t ← readTile tiles s.endIndex
      let tempArray ← writeTile s.tempArray i t
      pure { endIndex := s.endIndex - 1, tempArray := tempArray })
    tileCount.toNat { endIndex := endIndex, tempArray := tempArray }).map (fun s => s.tempArray)

/-- The function `reorderRandom` of `tile.c`, where `random i` is the value that
`rand_interval(0, tileCount - 1)` returned in iteration `i`; `none` when an access leaves the
array. -/
def reorderRandom (tiles : List RenderTile) (tileCount : Int) (random : Nat → Nat) :
    Option (List RenderTile) :=
  forLoopM (fun i (tiles : List RenderTile) => do
      let temp ← readTile tiles i
      let other ← readTile tiles (random i)
      let tiles ← writeTile tiles i other
      writeTile tiles (random i) temp)
    tileCount.toNat tiles

/-- The loop state of `reorderFromMiddle`. -/
structure FromMiddleState where
  midLeft : Int
  midRight : Int
  isRight : Bool
  tempArray : List RenderTile

/-- The state of `reorderFromMiddle` when its loop starts, lines 148 to 155 of `tile.c`.
In `ceil(tileCount / 2)` the quotient is the quotient of two `int`s, so `ceil` is applied to
an integer. -/
def fromMiddleInit (tileCount : Int) : FromMiddleState :=
  let midRight : Int := ⌈((tileCount.tdiv 2 : Int) : ℚ)⌉
  let midLeft : Int := midRight - 1
  { midLeft := midLeft, midRight := midRight, isRight := true,
    tempArray := List.replicate tileCount.toNat zeroTile }

/-- The function `reorderFromMiddle` of `tile.c`; `none` when an access leaves an array. -/
def reorderFromMiddle (tiles : List RenderTile) (tileCount : Int) : Option (List RenderTile) :=
  (forLoopM (fun i (s : FromMiddleState) =>
      if s.isRight then do
        let t ← readTile tiles s.midRight
        let tempArray ← writeTile s.tempArray i t
        pure { s with tempArray := tempArray, midRight := s.midRight + 1, isRight := false }
      else do
        let t ← readTile tiles s.midLeft
        let tempArray ← writeTile s.tempArray i t
        pure { s with tempArray := tempArray, midLeft := s.midLeft - 1, isRight := true })
    tileCount.toNat (fromMiddleInit tileCount)).map
    (fun s => s.tempArray)

/-- The loop state of `reorderToMiddle`. -/
structure ToMiddleState where
  left : Int
  right : Int
  isRight : Bool
  tempArray : List RenderTile

/-- The function `reorderToMiddle` of `tile.c`; `none` when an access leaves an array. -/
def reorderToMiddle (tiles : List RenderTile) (tileCount : Int) : Option (List RenderTile) :=
  let left : Int := 0
  let right : Int := tileCount - 1
  let tempArray := List.replicate tileCount.toNat zeroTile
  (forLoopM (fun i (s : ToMiddleState) =>
      if s.isRight then do
        let t ← readTile tiles s.right
        let tempArray ← writeTile s.tempArray i t
        pure { s with tempArray := tempArray, right := s.right - 1, isRight := false }
      else do
        let t ← readTile tiles s.left
        let tempArray ← writeTile s.tempArray i t
        pure { s with tempArray := tempArray, left := s.left + 1, isRight := true })
    tileCount.toNat
    { left := left, right := right, isRight := true, tempArray := tempArray }).map
    (fun s => s.tempArray)

/-- The `enum renderOrder`; `other` stands for every value without a `case` in
`reorderTiles`. -/
inductive RenderOrder where
  | renderOrderTopToBottom
  | renderOrderFromMiddle
  | renderOrderToMiddle
  | renderOrderRandom
  | other
deriving DecidableEq

/-- The function `reorderTiles` of `tile.c`. -/
def reorderTiles (tiles : List RenderTile) (tileCount : Int) (tileOrder : RenderOrder)
    (random : Nat → Nat) : Option (List RenderTile) :=
  match tileOrder with
  | .renderOrderFromMiddle => reorderFromMiddle tiles tileCount
  | .renderOrderToMiddle => reorderToMiddle tiles tileCount
  | .renderOrderTopToBottom => reorderTopToBottom tiles tileCount
  | .renderOrderRandom => reorderRandom tiles tileCount random
  | .other => some tiles

/-- The tiles numbered `0, 1, ..., n - 1` in this order, told apart by `tileNum`. -/
def numberedTiles (n : Nat) : List RenderTile :=
  (List.range n).map (fun i => { zeroTile with tileNum := i })

/-! ### `rand_interval` -/

/-- The number of values of an `unsigned int`. -/
@[irreducible] def UINT_RANGE : Nat := 2 ^ 32

/-- The conversion of an `int` to `unsigned int`. -/
def toUnsigned (i : Int) : Nat := (i % (UINT_RANGE : Int)).toNat

/-- The sum of two `unsigned int`s. -/
def uadd (a b : Nat) : Nat := (a + b) % UINT_RANGE

/-- The difference of two `unsigned int`s. -/
def usub (a b : Nat) : Nat := (a + (UINT_RANGE - b % UINT_RANGE)) % UINT_RANGE

/-- The product of two `unsigned int`s. -/
def umul (a b : Nat) : Nat := (a * b) % UINT_RANGE

/-- How a call of `rand_interval` ends: with a value, `next` being the number of outputs of
`rand()` used up so far, with a division by zero, or with its loop still running when the fuel
is used up. -/
inductive RandOutcome where
  | value (result : Nat) (next : Nat)
  | divisionByZero
  | noReturn
deriving DecidableEq

/-- The loop `do { r = rand(); } while (r >= limit);` of `rand_interval`, run for at most
`fuel` rounds on the outputs `rand pos, rand (pos + 1), ...` of `rand()`: the last `r` and the
position after it. -/
def randLoop (limit : Nat) (rand : Nat → Nat) : Nat → Nat → Option (Nat × Nat)
  | 0, _ => none
  | fuel + 1, pos =>
    let r := rand pos % UINT_RANGE
    if r ≥ limit then randLoop limit rand fuel (pos + 1) else some (r, pos + 1)

/-- The function `rand_interval` of `tile.c`, for the constant `RAND_MAX` of `stdlib.h` and
the outputs `rand` of `rand()`, read from position `pos` on. -/
def rand_interval (RAND_MAX : Nat) (rand : Nat → Nat) (fuel : Nat) (min max : Nat) (pos : Nat) :
    RandOutcome :=
  let range := usub (uadd 1 max) min
  if range = 0 then RandOutcome.divisionByZero
  else
    let buckets := (RAND_MAX % UINT_RANGE) / range
    let limit := umul buckets range
    match randLoop limit rand fuel pos with
    | none => RandOutcome.noReturn
    | some (r, next) =>
      if buckets = 0 then RandOutcome.divisionByZero
      else RandOutcome.value (uadd min (r / buckets)) next

/-- The value and the next position of an outcome that is a value. -/
def RandOutcome.toOption : RandOutcome → Option (Nat × Nat)
  | RandOutcome.value v next => some (v, next)
  | RandOutcome.divisionByZero => none
  | RandOutcome.noReturn => none

/-- One call `rand_interval(0, tileCount - 1)` of `reorderRandom`, from position `pos` of the
outputs of `rand()` on: the value returned and the position after the call; `none` when the
call does not return a value. -/
def drawIndex (RAND_MAX : Nat) (rand : Nat → Nat) (fuel : Nat) (tileCount : Int) (pos : Nat) :
    Option (Nat × Nat) :=
  (rand_interval RAND_MAX rand fuel 0 (toUnsigned (tileCount - 1)) pos).toOption

/-- The values that `rand_interval(0, tileCount - 1)` returns in the first `n` iterations of
the loop of `reorderRandom`, from position `pos` of the outputs of `rand()` on; `none` when
one of the calls does not return a value. -/
def randomDraws (RAND_MAX : Nat) (rand : Nat → Nat) (fuel : Nat) (tileCount : Int) :
    Nat → Nat → Option (List Nat)
  | 0, _ => some []
  | n + 1, pos =>
    (drawIndex RAND_MAX rand fuel tileCount pos).bind (fun p =>
      (randomDraws RAND_MAX rand fuel tileCount n p.2).map (fun vs => p.1 :: vs))

/-! ### Keyboard input (`ui.c`) -/

/-- The values of `event.type` that `getKeyboardInput` tells apart. -/
inductive EventType where
  | SDL_KEYDOWN
  | SDL_QUIT
  | other
deriving DecidableEq

/-- The values of `event.key.keysym.sym` that `getKeyboardInput` tells apart. -/
inductive Keycode where
  | SDLK_s
  | SDLK_x
  | SDLK_p
  | other
deriving DecidableEq

/-- The fields of an `SDL_Event` that `getKeyboardInput` reads: `type`, `key.repeat` and
`key.keysym.sym`. -/
structure SDLEvent where
  type : EventType
  keyRepeat : Nat
  sym : Keycode
deriving DecidableEq

/-- One entry of `r->state.threadStates`; `currentTile` is an index into `renderTiles`, `none`
when null. -/
structure ThreadState where
  paused : Bool
  currentTile : Option Nat
  completedSamples : Int
deriving DecidableEq

/-- The render control state `r->state`: the flags, the thread states, the tile array with its
count and hand-out counter, and the pixels of the image and of the overlay. -/
structure RenderState where
  renderAborted : Bool
  saveImage : Bool
  threadStates : List ThreadState
  renderTiles : List RenderTile
  tileCount : Int
  finishedTileCount : Int
  image : List Nat
  uiBuffer : List Nat
deriving DecidableEq

/-- The preferences `r->prefs` that `ui.c` reads. -/
structure Prefs where
  threadCount : Int
  sampleCount : Int
  tileWidth : Int
  tileHeight : Int
deriving DecidableEq

/-- The `struct renderer` of `ui.c`; `sdl` tells whether `r->sdl` is not null. -/
structure UiRenderer where
  sdl : Bool
  prefs : Prefs
  state : RenderState
deriving DecidableEq

/-- The loop over the threads for the key `p`, lines 309 to 311 of `ui.c`; `none` when
`threadStates` is accessed outside the array. -/
def togglePaused (threadCount : Int) (threadStates : List ThreadState) :
    Option (List ThreadState) :=
  forLoopM (fun i (ts : List ThreadState) =>
      match ts[i]? with
      | none => none
      | some t => some (ts.set i { t with paused := !t.paused }))
    threadCount.toNat threadStates

/-- The body of the loop of `getKeyboardInput` for one polled event, lines 295 to 319 of
`ui.c`. -/
def handleEvent (r : UiRenderer) (event : SDLEvent) : Option UiRenderer :=
  let keys : Option UiRenderer :=
    if event.type = EventType.SDL_KEYDOWN ∧ event.keyRepeat = 0 then
      let r := if event.sym = Keycode.SDLK_s then
          { r with state := { r.state with renderAborted := true, saveImage := true } }
        else r
      let r := if event.sym = Keycode.SDLK_x then
          { r with state := { r.state with renderAborted := true, saveImage := false } }
        else r
      if event.sym = Keycode.SDLK_p then
        (togglePaused r.prefs.threadCount r.state.threadStates).map (fun ts =>
          { r with state := { r.state with threadStates := ts } })
      else some r
    else some r
  keys.map (fun r =>
    if event.type = EventType.SDL_QUIT then
      { r with state := { r.state with renderAborted := true, saveImage := false } }
    else r)

/-- The function `getKeyboardInput` of `ui.c` on the events that `SDL_PollEvent` hands out, in
order, until it returns 0. -/
def getKeyboardInput (r : UiRenderer) (events : List SDLEvent) : Option UiRenderer :=
  if !r.sdl then some r
  else events.foldlM handleEvent r

/-- The render control state without the flags that the user sets: everything but
`renderAborted`, `saveImage` and the `paused` flag of every thread. -/
def RenderState.frame (s : RenderState) :
    List (Option Nat × Int) × List RenderTile × Int × Int × List Nat × List Nat :=
  (s.threadStates.map (fun t => (t.currentTile, t.completedSamples)),
    s.renderTiles, s.tileCount, s.finishedTileCount, s.image, s.uiBuffer)

/-- A renderer with a window, two threads and two tiles, one of them handed out. -/
def sampleUi : UiRenderer :=
  { sdl := true
    prefs := { threadCount := 2, sampleCount := 10, tileWidth := 8, tileHeight := 8 }
    state :=
      { renderAborted := false, saveImage := false
        threadStates := [⟨false, some 0, 3⟩, ⟨true, none, 0⟩]
        renderTiles := numberedTiles 2, tileCount := 2, finishedTileCount := 1
        image := [1, 2, 3], uiBuffer := [0, 0, 0] } }

/-! ## Materials (`material.h`, `material.c`) -/

section Material

variable {F R : Type}

/-- The `struct vector`. -/
structure Vector (F : Type) where
  x : F
  y : F
  z : F
deriving DecidableEq

/-- The `struct color`. -/
structure Color (F : Type) where
  red : F
  green : F
  blue : F
  alpha : F
deriving DecidableEq

/-- The `struct coord`. -/
structure Coord (F : Type) where
  x : F
  y : F
deriving DecidableEq

/-- The type of a material, the value of `mat->type`: the four enumerators that have a `case`
in `assignBSDF`, and `other v` for every other value `v` of the field. -/
inductive MaterialType where
  | lambertian
  | metal
  | emission
  | glass
  | other (value : Int)
deriving DecidableEq

/-- The functions of `material.c` that a `bsdf` function pointer can point to. -/
inductive Bsdf where
  | lambertianBSDF
  | metallicBSDF
  | emissiveBSDF
  | dialectricBSDF
  | weightedBSDF
deriving DecidableEq

/-- The `struct material`, with the fields that `material.c` reads or writes. The pointers
`name`, `textureFilePath`, `texture` and `bsdf` are `none` when null; a texture is a handle. -/
structure Material (F : Type) where
  name : Option String
  textureFilePath : Option String
  hasTexture : Bool
  texture : Option Nat
  ambient : Color F
  diffuse : Color F
  specular : Color F
  reflectivity : F
  refractivity : F
  IOR : F
  transparency : F
  sharpness : F
  glossiness : F
  roughness : F
  type : MaterialType
  bsdf : Option Bsdf
deriving DecidableEq

/-- The function `assignBSDF` of `material.c`. -/
def assignBSDF (mat : Material F) : Material F :=
  match mat.type with
  | .lambertian => { mat with bsdf := some .lambertianBSDF }
  | .metal => { mat with bsdf := some .metallicBSDF }
  | .emission => { mat with bsdf := some .emissiveBSDF }
  | .glass => { mat with bsdf := some .dialectricBSDF }
  | .other _ => { mat with bsdf := some .lambertianBSDF }

/-- The kind of a ray, `enum type` of `lightRay.h`. -/
inductive RayType where
  | rayTypeIncident
  | rayTypeScattered
  | rayTypeReflected
  | rayTypeRefracted
deriving DecidableEq

/-- The `struct lightRay`: five fields, in the order of the compound literal in
`lambertianBSDF`. -/
structure LightRay (F : Type) where
  start : Vector F
  direction : Vector F
  rayType : RayType
  currentMedium : Option (Material F)
  remainingInteractions : Int
deriving DecidableEq

/-- The `struct hitRecord`, with the fields that `material.c` reads; the field `end` is
spelled `end_`. -/
structure HitRecord (F : Type) where
  incident : LightRay F
  end_ : Material F
  hitPoint : Vector F
  surfaceNormal : Vector F
  uv : Coord F
  polyIndex : Int

/-- Modelled from the spec: `newRay` of `lightRay.h`, which is not under `src/`: the ray with
the given origin, direction and kind, that carries no material and has depth 0. -/
def newRay (start direction : Vector F) (rayType : RayType) : LightRay F :=
  { start := start, direction := direction, rayType := rayType,
    currentMedium := none, remainingInteractions := 0 }

variable [LinearOrderedField F]

/-- Modelled from the spec: `vecWithPos` of `vector.h`, which is not under `src/`. -/
def vecWithPos (x y z : F) : Vector F := ⟨x, y, z⟩

/-- Modelled from the spec: `vecAdd` of `vector.h`, which is not under `src/`: the sum by
components. -/
def vecAdd (a b : Vector F) : Vector F := ⟨a.x + b.x, a.y + b.y, a.z + b.z⟩

/-- Modelled from the spec: `vecSub` of `vector.h`, which is not under `src/`: the difference
by components. -/
def vecSub (a b : Vector F) : Vector F := ⟨a.x - b.x, a.y - b.y, a.z - b.z⟩

/-- Modelled from the spec: `vecScale` of `vector.h`, which is not under `src/`: every
component times the scalar. -/
def vecScale (v : Vector F) (c : F) : Vector F := ⟨v.x * c, v.y * c, v.z * c⟩

/-- Modelled from the spec: `vecDot` of `vector.h`, which is not under `src/`: the dot
product. -/
def vecDot (a b : Vector F) : F := a.x * b.x + a.y * b.y + a.z * b.z

/-- Modelled from the spec: `vecLengthSquared` of `vector.h`, which is not under `src/`. -/
def vecLengthSquared (v : Vector F) : F := v.x * v.x + v.y * v.y + v.z * v.z

/-- Modelled from the spec: `vecLength` of `vector.h`, which is not under `src/`: the square
root, a parameter, of the squared length. -/
def vecLength (sqrt : F → F) (v : Vector F) : F := sqrt (vecLengthSquared v)

/-- Modelled from the spec: `vecNormalize` of `vector.h`, which is not under `src/`: every
component divided by the length. -/
def vecNormalize (sqrt : F → F) (v : Vector F) : Vector F :=
  ⟨v.x / vecLength sqrt v, v.y / vecLength sqrt v, v.z / vecLength sqrt v⟩

/-- The order in which the three arguments of a call are evaluated, named by the positions of
the arguments evaluated first, second and third: `xyz` is left to right, `zyx` right to
left. -/
inductive ArgOrder where
  | xyz
  | xzy
  | yxz
  | yzx
  | zxy
  | zyx
deriving DecidableEq

/-- The arguments `(x, y, z)` of a call whose evaluation produced the values `d1`, `d2`, `d3`
in this order in time. -/
def ArgOrder.place {α : Type} (o : ArgOrder) (d1 d2 d3 : α) : α × α × α :=
  match o with
  | ArgOrder.xyz => (d1, d2, d3)
  | ArgOrder.xzy => (d1, d3, d2)
  | ArgOrder.yxz => (d2, d1, d3)
  | ArgOrder.yzx => (d3, d1, d2)
  | ArgOrder.zxy => (d2, d3, d1)
  | ArgOrder.zyx => (d3, d2, d1)

/-- What `material.c` takes from outside: the square root of `math.h`, the generator step
`rndFloat` on a `pcg32_random_t` state `R`, the texture lookup `colorForUV`, which reads
the global polygon and texture arrays and the texture collaborator, and the order in which
the compiler evaluates the arguments of a call. -/
structure Env (F R : Type) where
  sqrt : F → F
  rndFloat : R → F × R
  colorForUV : HitRecord F → Color F
  argOrder : ArgOrder

/-- The function `reflectVec` of `material.c`. -/
def reflectVec (incident normal : Vector F) : Vector F :=
  let reflect : F := 2 * vecDot incident normal
  vecSub incident (vecScale normal reflect)

/-- One round of the loop of `randomInUnitSphere`, lines 200 and 201 of `material.c`: the
point tried and the generator after the three draws. The draws are made one after the other
and handed to `vecWithPos` in the order of evaluation of its arguments. -/
def samplePoint (env : Env F R) (rng : R) : Vector F × R :=
  let d1 := env.rndFloat rng
  let d2 := env.rndFloat d1.2
  let d3 := env.rndFloat d2.2
  let args := env.argOrder.place d1.1 d2.1 d3.1
  let vec := vecScale (vecWithPos args.1 args.2.1 args.2.2) 2
  let vec := vecSub vec (vecWithPos 1 1 1)
  (vec, d3.2)

/-- The function `randomInUnitSphere` of `material.c`; the `do ... while` loop runs at most
`fuel` times, and `none` when it has not ended by then. -/
def randomInUnitSphere (env : Env F R) : Nat → R → Option (Vector F × R)
  | 0, _ => none
  | fuel + 1, rng =>
    let p := samplePoint env rng
    if vecLengthSquared p.1 ≥ 1 then randomInUnitSphere env fuel p.2 else some p

/-- The generator after `n` rounds of the loop of `randomInUnitSphere`. -/
def afterRounds (env : Env F R) : Nat → R → R
  | 0, rng => rng
  | n + 1, rng => afterRounds env n (samplePoint env rng).2

/-- The function `diffuseColor` of `material.c`. -/
def diffuseColor (env : Env F R) (isect : HitRecord F) : Color F :=
  if isect.end_.hasTexture then env.colorForUV isect else isect.end_.diffuse

/-- What a BSDF function leaves: its return value, `*attenuation`, `*scattered` and the state
of the generator. -/
structure BsdfResult (F R : Type) where
  continues : Bool
  attenuation : Color F
  scattered : LightRay F
  rng : R

/-- The function `metallicBSDF` of `material.c`; `none` when `randomInUnitSphere` has not ended
within `fuel` rounds. -/
def metallicBSDF (env : Env F R) (fuel : Nat) (isect : HitRecord F) (rng : R) :
    Option (BsdfResult F R) :=
  let normalizedDir := vecNormalize env.sqrt isect.incident.direction
  let reflected := reflectVec normalizedDir isect.surfaceNormal
  let rough : Option (Vector F × R) :=
    if isect.end_.roughness > 0 then
      (randomInUnitSphere env fuel rng).map (fun p =>
        let fuzz := vecScale p.1 isect.end_.roughness
        (vecAdd reflected fuzz, p.2))
    else some (reflected, rng)
  rough.map (fun p =>
    let scattered := newRay isect.hitPoint p.1 RayType.rayTypeReflected
    { continues := decide (vecDot scattered.direction isect.surfaceNormal > 0)
      attenuation := diffuseColor env isect
      scattered := scattered
      rng := p.2 })

/-- The function `lambertianBSDF` of `material.c`; `none` when `randomInUnitSphere` has not
ended within `fuel` rounds. -/
def lambertianBSDF (env : Env F R) (fuel : Nat) (isect : HitRecord F) (rng : R) :
    Option (BsdfResult F R) :=
  let temp := vecAdd isect.hitPoint isect.surfaceNormal
  (randomInUnitSphere env fuel rng).map (fun p =>
    let rand := p.1
    let scatterDir := vecSub (vecAdd temp rand) isect.hitPoint
    { continues := true
      attenuation := diffuseColor env isect
      scattered :=
        { start := isect.hitPoint, direction := scatterDir, rayType := RayType.rayTypeScattered,
          currentMedium := some isect.end_, remainingInteractions := 0 }
      rng := p.2 })

/-- Modelled from the spec: `vecNegate` of `vector.h`, which is not under `src/`: every
component negated. -/
def vecNegate (v : Vector F) : Vector F := ⟨-v.x, -v.y, -v.z⟩

/-- The function `refract` of `material.c`: `some refracted` when it returns true, `none` when
it returns false and leaves `*refracted` as it was. -/
def refract (sqrt : F → F) (inV normal : Vector F) (niOverNt : F) : Option (Vector F) :=
  let uv := vecNormalize sqrt inV
  let dt := vecDot uv normal
  let discriminant := 1 - niOverNt * niOverNt * (1 - dt * dt)
  if discriminant > 0 then
    let A := vecScale normal dt
    let B := vecSub uv A
    let C := vecScale B niOverNt
    let D := vecScale normal (sqrt discriminant)
    some (vecSub C D)
  else
    none

/-- The function `shlick` of `material.c`; `pow(x, 5)` is the fifth power. -/
def shlick (cosine IOR : F) : F :=
  let r0 := (1 - IOR) / (1 + IOR)
  let r0 := r0 * r0
  r0 + (1 - r0) * (1 - cosine) ^ 5

/-- The locals of `dialectricBSDF` when it reaches the roughness test, line 306 of
`material.c`. -/
structure DialectricLocals (F : Type) where
  outwardNormal : Vector F
  niOverNt : F
  cosine : F
  reflected : Vector F
  refracted : Vector F
  refractOk : Bool
  reflectionProbability : F

/-- Lines 281 to 304 of `dialectricBSDF`. The local `refracted` is not initialised: it holds
`garbage` until `refract` writes it. The ray stored in `*scattered` on line 302 is overwritten
on line 314 or 316 and is left out. -/
def dialectricLocals (env : Env F R) (garbage : Vector F) (isect : HitRecord F) :
    DialectricLocals F :=
  let reflected := reflectVec isect.incident.direction isect.surfaceNormal
  let entering : Vector F × F × F :=
    if vecDot isect.incident.direction isect.surfaceNormal > 0 then
      (vecNegate isect.surfaceNormal, isect.end_.IOR,
        isect.end_.IOR * vecDot isect.incident.direction isect.surfaceNormal /
          vecLength env.sqrt isect.incident.direction)
    else
      (isect.surfaceNormal, 1 / isect.end_.IOR,
        -(vecDot isect.incident.direction isect.surfaceNormal /
          vecLength env.sqrt isect.incident.direction))
  let outwardNormal := entering.1
  let niOverNt := entering.2.1
  let cosine := entering.2.2
  match refract env.sqrt isect.incident.direction outwardNormal niOverNt with
  | some refracted =>
    { outwardNormal := outwardNormal, niOverNt := niOverNt, cosine := cosine
      reflected := reflected, refracted := refracted, refractOk := true
      reflectionProbability := shlick cosine isect.end_.IOR }
  | none =>
    { outwardNormal := outwardNormal, niOverNt := niOverNt, cosine := cosine
      reflected := reflected, refracted := garbage, refractOk := false
      reflectionProbability := 1 }

/-- The function `dialectricBSDF` of `material.c`; `garbage` is what the uninitialised local
`refracted` holds, and `none` when `randomInUnitSphere` has not ended within `fuel` rounds. -/
def dialectricBSDF (env : Env F R) (fuel : Nat) (garbage : Vector F) (isect : HitRecord F)
    (rng : R) : Option (BsdfResult F R) :=
  let l := dialectricLocals env garbage isect
  let rough : Option (Vector F × Vector F × R) :=
    if isect.end_.roughness > 0 then
      (randomInUnitSphere env fuel rng).map (fun p =>
        let fuzz := vecScale p.1 isect.end_.roughness
        (vecAdd l.reflected fuzz, vecAdd l.refracted fuzz, p.2))
    else some (l.reflected, l.refracted, rng)
  rough.map (fun q =>
    let draw := env.rndFloat q.2.2
    { continues := true
      attenuation := diffuseColor env isect
      scattered :=
        if draw.1 < l.reflectionProbability then
          newRay isect.hitPoint q.1 RayType.rayTypeReflected
        else
          newRay isect.hitPoint q.2.1 RayType.rayTypeRefracted
      rng := draw.2 })

/-- An environment over the rationals: the identity as square root (right at 0 and 1), a
generator that always draws 0 and counts its draws, a black texture lookup, and arguments
evaluated from right to left. -/
def sampleEnv : Env ℚ Nat :=
  { sqrt := fun q => q
    rndFloat := fun n => (0, n + 1)
    colorForUV := fun _ => ⟨0, 0, 0, 0⟩
    argOrder := ArgOrder.zyx }

/-- A smooth metal: `roughness = 0`, gray diffuse color, no texture. -/
def sampleMetal : Material ℚ :=
  { name := none, textureFilePath := none, hasTexture := false, texture := none
    ambient := ⟨0, 0, 0, 0⟩, diffuse := ⟨1 / 2, 1 / 2, 1 / 2, 1⟩, specular := ⟨0, 0, 0, 0⟩
    reflectivity := 1, refractivity := 0, IOR := 1, transparency := 0, sharpness := 0
    glossiness := 0, roughness := 0
    type := MaterialType.metal, bsdf := some Bsdf.metallicBSDF }

/-- A ray going straight down that hits the plane `z = 0` at the origin, normal `(0, 0, 1)`. -/
def sampleHit : HitRecord ℚ :=
  { incident := newRay ⟨0, 0, 1⟩ ⟨0, 0, -1⟩ RayType.rayTypeIncident
    end_ := sampleMetal
    hitPoint := ⟨0, 0, 0⟩
    surfaceNormal := ⟨0, 0, 1⟩
    uv := ⟨0, 0⟩
    polyIndex := 0 }

/-- The environment `sampleEnv` with a generator that always draws `1/2`. -/
def halfEnv : Env ℚ Nat :=
  { sampleEnv with rndFloat := fun n => (1 / 2, n + 1) }

/-- The environment `sampleEnv` with a generator that draws `3/4`, `1/2`, `1/4` in turn,
and the given order of evaluation. -/
def cycleEnv (o : ArgOrder) : Env ℚ Nat :=
  { sampleEnv with
    rndFloat := fun n => (if n % 3 = 0 then 3 / 4 else if n % 3 = 1 then 1 / 2 else 1 / 4, n + 1)
    argOrder := o }

/-- The material `sampleMetal` turned into glass with the given index of refraction and
roughness. -/
def sampleGlass (IOR roughness : ℚ) : Material ℚ :=
  { sampleMetal with IOR := IOR, roughness := roughness, type := MaterialType.glass
                     bsdf := some Bsdf.dialectricBSDF }

/-- A hit of a ray of direction `d` at the origin of the plane `z = 0`, normal `(0, 0, 1)`,
on the glass `sampleGlass IOR roughness`. -/
def glassHit (IOR roughness : ℚ) (d : Vector ℚ) : HitRecord ℚ :=
  { sampleHit with incident := newRay ⟨0, 0, 0⟩ d RayType.rayTypeIncident
                   end_ := sampleGlass IOR roughness }

end Material

/-! ## Theorems -/

/-! ### `quantizeImage` -/

theorem wrapInt_eq (i : Int) (h1 : -2147483648 ≤ i) (h2 : i < 2147483648) : wrapInt i = i := by
  unfold wrapInt
  omega

theorem clampTileSize_bounds (dim t : Int) (h : 1 ≤ dim) :
    1 ≤ clampTileSize dim t ∧ clampTileSize dim t ≤ dim := by
  unfold clampTileSize
  simp only []
  split_ifs <;> omega

/-- With `1 ≤ t ≤ dim` and `dim` an `int`, `n = tilesAlong dim t` is the least `n` with
`dim ≤ n * t`. -/
theorem tilesAlong_spec (dim t : Int) (ht : 1 ≤ t) (hd : t ≤ dim) (hb : dim < 2147483648) :
    1 ≤ tilesAlong dim t ∧ (tilesAlong dim t - 1) * t < dim ∧ dim ≤ tilesAlong dim t * t := by
  have h0 : (0 : Int) ≤ dim := by omega
  have h1 : (0 : Int) ≤ t := by omega
  have hq : dim.tdiv t = dim / t := Int.tdiv_eq_ediv h0 h1
  have hr : dim.tmod t = dim % t := Int.tmod_eq_emod h0 h1
  have e := Int.ediv_add_emod dim t
  have r0 := Int.emod_nonneg dim (show t ≠ 0 by omega)
  have r1 := Int.emod_lt_of_pos dim (show 0 < t by omega)
  have q1 : 1 ≤ dim / t := by
    have := Int.ediv_le_ediv (show 0 < t by omega) hd
    rwa [Int.ediv_self (show t ≠ 0 by omega)] at this
  unfold tilesAlong
  simp only [hq, hr]
  generalize dim / t = q at *
  generalize dim % t = r at *
  have hqq : q ≤ t * q := by nlinarith
  have e1 : (q + 1 - 1) * t = t * q := by ring
  have e2 : (q + 1) * t = t * q + t := by ring
  have e3 : (q - 1) * t = t * q - t := by ring
  have e4 : q * t = t * q := by ring
  split_ifs with hz
  · rw [wrapInt_eq (q + 1) (by omega) (by omega), e1, e2]
    exact ⟨by omega, by omega, by omega⟩
  · have hz' : r = 0 := by simpa using hz
    rw [e3, e4]
    exact ⟨by omega, by omega, by omega⟩

/-- Every column index below `tilesAlong` starts inside the image. -/
theorem col_begin_lt (dim t : Int) (ht : 1 ≤ t) (hd : t ≤ dim) (hb : dim < 2147483648) (x : Int)
    (hx : x < tilesAlong dim t) : x * t < dim := by
  obtain ⟨-, h2, -⟩ := tilesAlong_spec dim t ht hd hb
  have : x * t ≤ (tilesAlong dim t - 1) * t :=
    mul_le_mul_of_nonneg_right (by omega) (by omega)
  omega

/-- One round of the inner loop of `quantizeImage` when none of its `int` results leaves the
range of `int`. -/
theorem quantizeBody_eq (W H tw th : Int) (X y x : Nat) (s : QuantState)
    (htw : 1 ≤ tw) (hth : 1 ≤ th)
    (hx : ((x : Int) + 1) * tw < 2147483648) (hy : ((y : Int) + 1) * th < 2147483648)
    (hi : (x : Int) + (y : Int) * (X : Int) < 2147483648)
    (hc : 0 ≤ s.tileCount ∧ s.tileCount + 1 < 2147483648) :
    quantizeBody W H tw th X y x s =
      { renderTiles := s.renderTiles.set (x + y * X)
          { width := tw
            height := th
            begin := ⟨(x : Int) * tw, (y : Int) * th⟩
            end_ := ⟨min (((x : Int) + 1) * tw) W, min (((y : Int) + 1) * th) H⟩
            completedSamples := 1
            isRendering := false
            tileNum := s.tileCount }
        tileCount := s.tileCount + 1 } := by
  have hxn : (0 : Int) ≤ (x : Int) := Int.ofNat_nonneg _
  have hyn : (0 : Int) ≤ (y : Int) := Int.ofNat_nonneg _
  have hx0 : (0 : Int) ≤ (x : Int) * tw := mul_nonneg hxn (by omega)
  have hy0 : (0 : Int) ≤ (y : Int) * th := mul_nonneg hyn (by omega)
  have hyX : (0 : Int) ≤ (y : Int) * (X : Int) := mul_nonneg hyn (Int.ofNat_nonneg _)
  have ex : ((x : Int) + 1) * tw = (x : Int) * tw + tw := by ring
  have ey : ((y : Int) + 1) * th = (y : Int) * th + th := by ring
  obtain ⟨hc0, hc1⟩ := hc
  have w1 : wrapInt ((x : Int) * tw) = (x : Int) * tw :=
    wrapInt_eq _ (by linarith) (by linarith)
  have w2 : wrapInt ((y : Int) * th) = (y : Int) * th :=
    wrapInt_eq _ (by linarith) (by linarith)
  have w3 : wrapInt ((x : Int) + 1) = (x : Int) + 1 :=
    wrapInt_eq _ (by linarith) (by nlinarith)
  have w4 : wrapInt ((y : Int) + 1) = (y : Int) + 1 :=
    wrapInt_eq _ (by linarith) (by nlinarith)
  have w5 : wrapInt (((x : Int) + 1) * tw) = ((x : Int) + 1) * tw :=
    wrapInt_eq _ (by linarith) (by linarith)
  have w6 : wrapInt (((y : Int) + 1) * th) = ((y : Int) + 1) * th :=
    wrapInt_eq _ (by linarith) (by linarith)
  have w7 : wrapInt ((y : Int) * (X : Int)) = (y : Int) * (X : Int) :=
    wrapInt_eq _ (by linarith) (by linarith)
  have w8 : wrapInt ((x : Int) + (y : Int) * (X : Int)) = (x : Int) + (y : Int) * (X : Int) :=
    wrapInt_eq _ (by linarith) (by linarith)
  have w9 : wrapInt (s.tileCount + 1) = s.tileCount + 1 :=
    wrapInt_eq _ (by linarith) (by linarith)
  have hidx : ((x : Int) + (y : Int) * (X : Int)).toNat = x + y * X := by
    have : ((x : Int) + (y : Int) * (X : Int)) = ((x + y * X : Nat) : Int) := by push_cast; ring
    rw [this, Int.toNat_ofNat]
  unfold quantizeBody
  simp only [w1, w2, w3, w4, w5, w6, w7, w8, w9, hidx]

theorem quantize_inner (W H tw th : Int) (X N y : Nat) (htw : 1 ≤ tw) (hth : 1 ≤ th)
    (hxb : ∀ x : Nat, x < X → ((x : Int) + 1) * tw < 2147483648)
    (hyb : ((y : Int) + 1) * th < 2147483648) (hN : (N : Int) < 2147483648)
    (hy : (y + 1) * X ≤ N) (n : Nat)
    (hn : n ≤ X) (s : QuantState) (hs : QuantInv W H tw th X N (y * X) s) :
    QuantInv W H tw th X N (n + y * X)
      (forLoop (fun x s => quantizeBody W H tw th X y x s) n s) := by
  induction n with
  | zero => simpa [forLoop] using hs
  | succ n ih =>
    obtain ⟨hc, hl, hget⟩ := ih (by omega)
    have hlt : n + y * X < N := by
      have : (y + 1) * X = y * X + X := by ring
      omega
    have hlt' : (n : Int) + (y : Int) * (X : Int) < (N : Int) := by exact_mod_cast hlt
    rw [forLoop]
    generalize forLoop (fun x s => quantizeBody W H tw th X y x s) n s = s' at hc hl hget ⊢
    have hc' : s'.tileCount = (n : Int) + (y : Int) * (X : Int) := by
      rw [hc]; push_cast; ring
    have hyX : (0 : Int) ≤ (y : Int) * (X : Int) :=
      mul_nonneg (Int.ofNat_nonneg _) (Int.ofNat_nonneg _)
    rw [quantizeBody_eq W H tw th X y n s' htw hth (hxb n (by omega)) hyb (by omega)
      ⟨by omega, by omega⟩]
    refine ⟨by simp only [hc]; push_cast; ring, by simpa using hl, ?_⟩
    intro j hj
    by_cases hjn : j = n + y * X
    · subst hjn
      rw [List.getElem?_set_self (by omega)]
      have hm : (n + y * X) % X = n := by
        rw [Nat.add_mul_mod_self_right]; exact Nat.mod_eq_of_lt (by omega)
      have hd : (n + y * X) / X = y := by
        rw [Nat.add_mul_div_right _ _ (by omega), Nat.div_eq_of_lt (by omega)]; omega
      simp [gridTile, hm, hd, hc]
    · rw [List.getElem?_set_ne (by omega)]
      exact hget j (by omega)

theorem quantize_outer (W H tw th : Int) (X N : Nat) (htw : 1 ≤ tw) (hth : 1 ≤ th)
    (hxb : ∀ x : Nat, x < X → ((x : Int) + 1) * tw < 2147483648)
    (hN : (N : Int) < 2147483648) (y : Nat)
    (hyb : ∀ j : Nat, j < y → ((j : Int) + 1) * th < 2147483648) (hy : y * X ≤ N)
    (s : QuantState) (hs : QuantInv W H tw th X N 0 s) :
    QuantInv W H tw th X N (y * X)
      (forLoop (fun y s => forLoop (fun x s => quantizeBody W H tw th X y x s) X s) y s) := by
  induction y with
  | zero => simpa [forLoop] using hs
  | succ y ih =>
    have h1 : (y + 1) * X = y * X + X := by ring
    have := quantize_inner W H tw th X N y htw hth hxb (hyb y (by omega)) hN hy X le_rfl _
      (ih (fun j hj => hyb j (by omega)) (by omega))
    simp only [forLoop]
    rw [h1, Nat.add_comm]
    exact this

/-- The result of `quantizeImage` in closed form, `X * Y` tiles in scan order, when the sums
`W + tileWidth` and `H + tileHeight` with the clamped tile sizes and the number of tiles stay
in the range of `int`. -/
theorem quantizeImage_eq (W H tileWidth tileHeight : Int) (hW : 1 ≤ W) (hH : 1 ≤ H)
    (hWb : W + clampTileSize W tileWidth ≤ 2147483648)
    (hHb : H + clampTileSize H tileHeight ≤ 2147483648)
    (hNb : tilesAlong W (clampTileSize W tileWidth) *
      tilesAlong H (clampTileSize H tileHeight) < 2147483648) :
    quantizeImage W H tileWidth tileHeight =
      ((List.range ((tilesAlong W (clampTileSize W tileWidth)).toNat *
          (tilesAlong H (clampTileSize H tileHeight)).toNat)).map
        (gridTile W H (clampTileSize W tileWidth) (clampTileSize H tileHeight)
          (tilesAlong W (clampTileSize W tileWidth)).toNat),
       tilesAlong W (clampTileSize W tileWidth) * tilesAlong H (clampTileSize H tileHeight)) := by
  obtain ⟨cw1, cw2⟩ := clampTileSize_bounds W tileWidth hW
  obtain ⟨ch1, ch2⟩ := clampTileSize_bounds H tileHeight hH
  have hxl := col_begin_lt W _ cw1 cw2 (by omega)
  have hyl := col_begin_lt H _ ch1 ch2 (by omega)
  obtain ⟨hx, -, -⟩ := tilesAlong_spec W _ cw1 cw2 (by omega)
  obtain ⟨hy, -, -⟩ := tilesAlong_spec H _ ch1 ch2 (by omega)
  unfold quantizeImage
  generalize clampTileSize W tileWidth = tw at *
  generalize clampTileSize H tileHeight = th at *
  obtain ⟨X, hX⟩ := Int.eq_ofNat_of_zero_le (show 0 ≤ tilesAlong W tw by omega)
  obtain ⟨Y, hY⟩ := Int.eq_ofNat_of_zero_le (show 0 ≤ tilesAlong H th by omega)
  rw [hX] at hxl hNb
  rw [hY] at hyl hNb
  have hXY : (0 : Int) ≤ (X : Int) * (Y : Int) :=
    mul_nonneg (Int.ofNat_nonneg _) (Int.ofNat_nonneg _)
  have hN : (wrapInt ((X : Int) * (Y : Int))).toNat = Y * X := by
    rw [wrapInt_eq _ (by omega) hNb]
    have : ((X : Int) * (Y : Int)) = ((Y * X : Nat) : Int) := by push_cast; ring
    rw [this, Int.toNat_ofNat]
  have hNb' : ((Y * X : Nat) : Int) < 2147483648 := by
    have : ((Y * X : Nat) : Int) = (X : Int) * (Y : Int) := by push_cast; ring
    rw [this]; exact hNb
  have hxb : ∀ x : Nat, x < X → ((x : Int) + 1) * tw < 2147483648 := by
    intro x hx'
    have := hxl (x : Int) (by exact_mod_cast hx')
    have e : ((x : Int) + 1) * tw = (x : Int) * tw + tw := by ring
    omega
  have hyb : ∀ y : Nat, y < Y → ((y : Int) + 1) * th < 2147483648 := by
    intro y hy'
    have := hyl (y : Int) (by exact_mod_cast hy')
    have e : ((y : Int) + 1) * th = (y : Int) * th + th := by ring
    omega
  have h0 : QuantInv W H tw th X (Y * X) 0 ⟨List.replicate (Y * X) zeroTile, 0⟩ :=
    ⟨by simp, by simp, fun j hj => by omega⟩
  obtain ⟨hc, hl, hget⟩ := quantize_outer W H tw th X (Y * X) cw1 ch1 hxb hNb' Y hyb le_rfl _ h0
  simp only [hX, hY, Int.toNat_ofNat, hN]
  refine Prod.ext ?_ ?_
  · apply List.ext_getElem?
    intro j
    by_cases hj : j < Y * X
    · simp only [hget j hj, List.getElem?_map, List.getElem?_range (Nat.mul_comm X Y ▸ hj),
        Option.map_some']
    · rw [List.getElem?_eq_none (by simp only [hl]; omega),
        List.getElem?_eq_none (by simp; rw [Nat.mul_comm]; omega)]
  · simp only [hc]; push_cast; ring

theorem clampTileSize_eq (dim t : Int) (h : 1 ≤ dim) :
    clampTileSize dim t = max 1 (min t dim) := by
  unfold clampTileSize
  simp only []
  split_ifs <;> omega

/-- The count of `tilesAlong` is the ceiling of the exact quotient. -/
theorem tilesAlong_eq_ceil (dim t : Int) (ht : 1 ≤ t) (hd : t ≤ dim) (hb : dim < 2147483648) :
    tilesAlong dim t = ⌈(dim : ℚ) / (t : ℚ)⌉ := by
  obtain ⟨-, h2, h3⟩ := tilesAlong_spec dim t ht hd hb
  have tq : (0 : ℚ) < (t : ℚ) := by exact_mod_cast (show (0 : Int) < t by omega)
  symm
  rw [Int.ceil_eq_iff]
  constructor
  · rw [lt_div_iff₀ tq]
    exact_mod_cast h2
  · rw [div_le_iff₀ tq]
    exact_mod_cast h3

/-- The bounds on the image and the clamped tile sizes, stated with `max`, `min` and the
ceiling, in terms of `clampTileSize` and `tilesAlong`. -/
theorem quantize_bounds (W H tileWidth tileHeight : Int) (hW : 1 ≤ W) (hH : 1 ≤ H)
    (hWb : W + max 1 (min tileWidth W) ≤ 2147483648)
    (hHb : H + max 1 (min tileHeight H) ≤ 2147483648)
    (hNb : ⌈(W : ℚ) / (max 1 (min tileWidth W) : Int)⌉ *
      ⌈(H : ℚ) / (max 1 (min tileHeight H) : Int)⌉ < 2147483648) :
    W + clampTileSize W tileWidth ≤ 2147483648 ∧
    H + clampTileSize H tileHeight ≤ 2147483648 ∧
    tilesAlong W (clampTileSize W tileWidth) *
      tilesAlong H (clampTileSize H tileHeight) < 2147483648 := by
  have cw := clampTileSize_eq W tileWidth hW
  have ch := clampTileSize_eq H tileHeight hH
  obtain ⟨cw1, cw2⟩ := clampTileSize_bounds W tileWidth hW
  obtain ⟨ch1, ch2⟩ := clampTileSize_bounds H tileHeight hH
  rw [← cw] at hWb hNb
  rw [← ch] at hHb hNb
  rw [← tilesAlong_eq_ceil W _ cw1 cw2 (by omega),
    ← tilesAlong_eq_ceil H _ ch1 ch2 (by omega)] at hNb
  exact ⟨hWb, hHb, hNb⟩

theorem readTile_natCast (tiles : List RenderTile) (i : Nat) :
    readTile tiles (i : Int) = tiles[i]? := by
  simp [readTile]

/-- The tile stored at column `x` of row `y`. -/
theorem quantizeImage_read (W H tileWidth tileHeight : Int) (hW : 1 ≤ W) (hH : 1 ≤ H)
    (hWb : W + clampTileSize W tileWidth ≤ 2147483648)
    (hHb : H + clampTileSize H tileHeight ≤ 2147483648)
    (hNb : tilesAlong W (clampTileSize W tileWidth) *
      tilesAlong H (clampTileSize H tileHeight) < 2147483648)
    (x y : Int) (hx0 : 0 ≤ x) (hx : x < tilesAlong W (clampTileSize W tileWidth))
    (hy0 : 0 ≤ y) (hy : y < tilesAlong H (clampTileSize H tileHeight)) :
    readTile (quantizeImage W H tileWidth tileHeight).1
        (x + y * tilesAlong W (clampTileSize W tileWidth)) =
      some { width := clampTileSize W tileWidth
             height := clampTileSize H tileHeight
             begin := ⟨x * clampTileSize W tileWidth, y * clampTileSize H tileHeight⟩
             end_ := ⟨min ((x + 1) * clampTileSize W tileWidth) W,
                      min ((y + 1) * clampTileSize H tileHeight) H⟩
             completedSamples := 1
             isRendering := false
             tileNum := x + y * tilesAlong W (clampTileSize W tileWidth) } := by
  rw [quantizeImage_eq W H tileWidth tileHeight hW hH hWb hHb hNb]
  clear hWb hHb hNb
  generalize clampTileSize W tileWidth = tw at *
  generalize clampTileSize H tileHeight = th at *
  obtain ⟨X, hX⟩ := Int.eq_ofNat_of_zero_le (show 0 ≤ tilesAlong W tw by omega)
  obtain ⟨Y, hY⟩ := Int.eq_ofNat_of_zero_le (show 0 ≤ tilesAlong H th by omega)
  obtain ⟨a, rfl⟩ := Int.eq_ofNat_of_zero_le hx0
  obtain ⟨b, rfl⟩ := Int.eq_ofNat_of_zero_le hy0
  rw [hX, hY] at *
  have hx' : a < X := by exact_mod_cast hx
  have hy' : b < Y := by exact_mod_cast hy
  have hidx : ((a : Int) + (b : Int) * (X : Int)) = ((a + b * X : Nat) : Int) := by
    push_cast; ring
  have hlt : a + b * X < X * Y := by
    have : (b + 1) * X ≤ Y * X := Nat.mul_le_mul_right X hy'
    have e1 : (b + 1) * X = b * X + X := by ring
    have e2 : Y * X = X * Y := by ring
    omega
  have hm : (a + b * X) % X = a := by
    rw [Nat.add_mul_mod_self_right]; exact Nat.mod_eq_of_lt hx'
  have hd : (a + b * X) / X = b := by
    rw [Nat.add_mul_div_right _ _ (by omega), Nat.div_eq_of_lt hx']; omega
  simp only [Int.toNat_ofNat]
  rw [hidx, readTile_natCast, List.getElem?_map, List.getElem?_range hlt]
  simp [gridTile, hm, hd]

/-- C5 as the claim states it fails at the image 2147483647 by 1 with requested tiles of
1500000000 by 1: the clamped tile width is 1500000000 and there are two columns, and at index
`1 + 0 * 2` the claim puts `end.x = min((1 + 1) * 1500000000, 2147483647) = 2147483647`, while
the product `(1 + 1) * 1500000000` is computed in `int` and `quantizeImage` stores
`end.x = -1294967296`. -/
theorem quantizeImage_layout_counterexample :
    (1 : Int) ≤ 2147483647 ∧ (1 : Int) ≤ 1 ∧
    clampTileSize 2147483647 1500000000 = 1500000000 ∧
    tilesAlong 2147483647 (clampTileSize 2147483647 1500000000) = 2 ∧
    (quantizeImage 2147483647 1 1500000000 1).2 = 2 ∧
    (readTile (quantizeImage 2147483647 1 1500000000 1).1 (1 + 0 * 2)).map
        (fun t => (t.begin.x, t.end_.x)) = some (1500000000, -1294967296) ∧
    min ((1 + 1) * max 1 (min 1500000000 2147483647)) 2147483647 = (2147483647 : Int) := by
  decide

/-- C5 with the bound that keeps the arithmetic in `int`: for `W, H ≥ 1` and a requested tile
size such that, with the clamped tile sizes `tw = max(1, min(tileWidth, W))` and
`th = max(1, min(tileHeight, H))`, the sums `W + tw` and `H + th` are at most `2^31` and the
number of tiles `ceil(W/tw) * ceil(H/th)` is below `2^31`, `quantizeImage` clamps the tile
width into `[1, W]` and the tile height into `[1, H]`, returns `ceil(W/tw) * ceil(H/th)`,
which is also the length of the array, and stores at index `x + y * tilesX` the tile with
`begin = (x*tw, y*th)`, `end = (min((x+1)*tw, W), min((y+1)*th, H))`,
`completedSamples = 1`, not rendering, `tileNum` the index. `quantizeImage(400,300,100,100)`
gives 12 tiles of 100 by 100, `quantizeImage(410,300,100,100)` has 5 columns and the tiles of
the last column end at `x = 410`. -/
theorem quantizeImage_layout (W H tileWidth tileHeight : Int) (hW : 1 ≤ W) (hH : 1 ≤ H)
    (hWb : W + max 1 (min tileWidth W) ≤ 2147483648)
    (hHb : H + max 1 (min tileHeight H) ≤ 2147483648)
    (hNb : ⌈(W : ℚ) / (max 1 (min tileWidth W) : Int)⌉ *
      ⌈(H : ℚ) / (max 1 (min tileHeight H) : Int)⌉ < 2147483648) :
    clampTileSize W tileWidth = max 1 (min tileWidth W) ∧
    clampTileSize H tileHeight = max 1 (min tileHeight H) ∧
    (quantizeImage W H tileWidth tileHeight).2 =
      ⌈(W : ℚ) / (max 1 (min tileWidth W) : Int)⌉ * ⌈(H : ℚ) / (max 1 (min tileHeight H) : Int)⌉ ∧
    ((quantizeImage W H tileWidth tileHeight).1.length : Int) =
      (quantizeImage W H tileWidth tileHeight).2 ∧
    (∀ x y : Int, 0 ≤ x → x < ⌈(W : ℚ) / (max 1 (min tileWidth W) : Int)⌉ →
      0 ≤ y → y < ⌈(H : ℚ) / (max 1 (min tileHeight H) : Int)⌉ →
      readTile (quantizeImage W H tileWidth tileHeight).1
          (x + y * ⌈(W : ℚ) / (max 1 (min tileWidth W) : Int)⌉) =
        some { width := max 1 (min tileWidth W)
               height := max 1 (min tileHeight H)
               begin := ⟨x * max 1 (min tileWidth W), y * max 1 (min tileHeight H)⟩
               end_ := ⟨min ((x + 1) * max 1 (min tileWidth W)) W,
                        min ((y + 1) * max 1 (min tileHeight H)) H⟩
               completedSamples := 1
               isRendering := false
               tileNum := x + y * ⌈(W : ℚ) / (max 1 (min tileWidth W) : Int)⌉ }) ∧
    ((quantizeImage 400 300 100 100).2 = 12 ∧
      (quantizeImage 400 300 100 100).1.length = 12 ∧
      ∀ t ∈ (quantizeImage 400 300 100 100).1,
        t.width = 100 ∧ t.height = 100 ∧
          t.end_.x - t.begin.x = 100 ∧ t.end_.y - t.begin.y = 100 ∧
          t.end_.x ≤ 400 ∧ t.end_.y ≤ 300) ∧
    (tilesAlong 410 (clampTileSize 410 100) = 5 ∧
      ∀ y : Int, 0 ≤ y → y < 3 →
        (readTile (quantizeImage 410 300 100 100).1 (4 + y * 5)).map (fun t => t.end_.x)
          = some 410) := by
  obtain ⟨bW, bH, bN⟩ := quantize_bounds W H tileWidth tileHeight hW hH hWb hHb hNb
  have cw := clampTileSize_eq W tileWidth hW
  have ch := clampTileSize_eq H tileHeight hH
  obtain ⟨cw1, cw2⟩ := clampTileSize_bounds W tileWidth hW
  obtain ⟨ch1, ch2⟩ := clampTileSize_bounds H tileHeight hH
  have ex := tilesAlong_eq_ceil W _ cw1 cw2 (by omega)
  have ey := tilesAlong_eq_ceil H _ ch1 ch2 (by omega)
  rw [cw] at ex
  rw [ch] at ey
  refine ⟨cw, ch, ?_, ?_, ?_, ?_, ?_⟩
  · rw [quantizeImage_eq W H tileWidth tileHeight hW hH bW bH bN, ← ex, ← ey, cw, ch]
  · obtain ⟨hx, -, -⟩ := tilesAlong_spec W _ cw1 cw2 (by omega)
    obtain ⟨hy, -, -⟩ := tilesAlong_spec H _ ch1 ch2 (by omega)
    rw [quantizeImage_eq W H tileWidth tileHeight hW hH bW bH bN]
    simp only [List.length_map, List.length_range]
    push_cast
    rw [Int.toNat_of_nonneg (by omega), Int.toNat_of_nonneg (by omega)]
  · intro x y hx0 hx hy0 hy
    rw [← ex] at hx ⊢
    rw [← ey] at hy
    rw [← cw] at hx ⊢
    rw [← ch] at hy ⊢
    exact quantizeImage_read W H tileWidth tileHeight hW hH bW bH bN x y hx0 hx hy0 hy
  · decide
  · refine ⟨by decide, ?_⟩
    intro y hy0 hy
    have : y = 0 ∨ y = 1 ∨ y = 2 := by omega
    rcases this with rfl | rfl | rfl <;> decide

/-- The numbers of columns and rows of the image 410 by 300 with tiles of 100 by 100. -/
theorem ceil_sample :
    ⌈((410 : Int) : ℚ) / (max 1 (min 100 410) : Int)⌉ = 5 ∧
    ⌈((300 : Int) : ℚ) / (max 1 (min 100 300) : Int)⌉ = 3 := by
  constructor
  · rw [← clampTileSize_eq 410 100 (by decide),
      ← tilesAlong_eq_ceil 410 _ (by decide) (by decide) (by decide)]
    decide
  · rw [← clampTileSize_eq 300 100 (by decide),
      ← tilesAlong_eq_ceil 300 _ (by decide) (by decide) (by decide)]
    decide

/-- C5 at the image 410 by 300 with requested tiles of 100 by 100. -/
theorem quantizeImage_layout_witness :
    (1 : Int) ≤ 410 ∧ (1 : Int) ≤ 300 ∧
      (410 : Int) + max 1 (min 100 410) ≤ 2147483648 ∧
      (300 : Int) + max 1 (min 100 300) ≤ 2147483648 ∧
      ⌈((410 : Int) : ℚ) / (max 1 (min 100 410) : Int)⌉ *
        ⌈((300 : Int) : ℚ) / (max 1 (min 100 300) : Int)⌉ < 2147483648 ∧
      (quantizeImage 410 300 100 100).2 =
        ⌈((410 : Int) : ℚ) / (max 1 (min 100 410) : Int)⌉ *
          ⌈((300 : Int) : ℚ) / (max 1 (min 100 300) : Int)⌉ :=
  have hN : ⌈((410 : Int) : ℚ) / (max 1 (min 100 410) : Int)⌉ *
      ⌈((300 : Int) : ℚ) / (max 1 (min 100 300) : Int)⌉ < 2147483648 := by
    rw [ceil_sample.1, ceil_sample.2]; decide
  ⟨by decide, by decide, by decide, by decide, hN,
    (quantizeImage_layout 410 300 100 100 (by decide) (by decide) (by decide) (by decide)
      hN).2.2.1⟩

theorem list_sum_map_range (f : Nat → Int) (n : Nat) :
    ((List.range n).map f).sum = ∑ i in Finset.range n, f i := by
  induction n with
  | zero => simp
  | succ n ih => rw [List.sum_range_succ, Finset.sum_range_succ, ih]

/-- A sum over a grid stored row by row factors into the sums over columns and rows. -/
theorem sum_grid (a b : Nat → Int) (X Y : Nat) (hX : 0 < X) :
    ∑ i in Finset.range (X * Y), a (i % X) * b (i / X) =
      (∑ x in Finset.range X, a x) * ∑ y in Finset.range Y, b y := by
  induction Y with
  | zero => simp
  | succ Y ih =>
    rw [Nat.mul_succ, Finset.sum_range_add, ih, Finset.sum_range_succ, mul_add]
    congr 1
    rw [Finset.sum_mul]
    apply Finset.sum_congr rfl
    intro x hx
    have hx' : x < X := Finset.mem_range.mp hx
    rw [Nat.mul_add_mod, Nat.mod_eq_of_lt hx', Nat.mul_add_div hX, Nat.div_eq_of_lt hx',
      Nat.add_zero]

/-- The widths of the columns add up to the image width. -/
theorem col_sum (dim t : Int) (ht : 1 ≤ t) (hd : t ≤ dim) (hb : dim < 2147483648) (X : Nat)
    (hX : tilesAlong dim t = X) :
    ∑ x in Finset.range X, (min ((((x : Nat) : Int) + 1) * t) dim - ((x : Nat) : Int) * t) =
      dim := by
  obtain ⟨-, -, h3⟩ := tilesAlong_spec dim t ht hd hb
  have key : ∀ x ∈ Finset.range X,
      min ((((x : Nat) : Int) + 1) * t) dim - ((x : Nat) : Int) * t =
        (fun k : Nat => min ((k : Int) * t) dim) (x + 1) -
          (fun k : Nat => min ((k : Int) * t) dim) x := by
    intro x hx
    have hx' : ((x : Nat) : Int) < tilesAlong dim t := by
      rw [hX]; exact_mod_cast Finset.mem_range.mp hx
    have := col_begin_lt dim t ht hd hb x hx'
    simp only [Nat.cast_add, Nat.cast_one]
    rw [min_eq_left (le_of_lt this)]
  rw [Finset.sum_congr rfl key, Finset.sum_range_sub (fun k : Nat => min ((k : Int) * t) dim)]
  rw [hX] at h3
  simp only [Nat.cast_zero, zero_mul]
  rw [min_eq_right h3, min_eq_left (by omega)]
  ring

/-- A pixel coordinate lies in exactly the column `p / t`. -/
theorem col_unique (t : Int) (ht : 1 ≤ t) (a b p : Int)
    (ha : a * t ≤ p) (ha' : p < (a + 1) * t) (hb : b * t ≤ p) (hb' : p < (b + 1) * t) :
    a = b := by
  have h1 : a < b + 1 := lt_of_mul_lt_mul_right (lt_of_le_of_lt ha hb') (by omega)
  have h2 : b < a + 1 := lt_of_mul_lt_mul_right (lt_of_le_of_lt hb ha') (by omega)
  omega

/-- The column of a pixel coordinate inside the image. -/
theorem col_exists (dim t : Int) (ht : 1 ≤ t) (hd : t ≤ dim) (hb : dim < 2147483648) (p : Int)
    (hp0 : 0 ≤ p) (hp : p < dim) :
    ∃ x : Nat, (x : Int) < tilesAlong dim t ∧ (x : Int) * t ≤ p ∧
      p < min (((x : Int) + 1) * t) dim := by
  obtain ⟨-, -, h3⟩ := tilesAlong_spec dim t ht hd hb
  have e := Int.ediv_add_emod p t
  have r0 := Int.emod_nonneg p (show t ≠ 0 by omega)
  have r1 := Int.emod_lt_of_pos p (show 0 < t by omega)
  have q0 : 0 ≤ p / t := Int.ediv_nonneg hp0 (by omega)
  obtain ⟨x, hx⟩ := Int.eq_ofNat_of_zero_le q0
  have e1 : (x : Int) * t = t * (p / t) := by rw [← hx]; ring
  have e2 : ((x : Int) + 1) * t = t * (p / t) + t := by rw [← hx]; ring
  refine ⟨x, ?_, by omega, lt_min (by omega) hp⟩
  apply lt_of_mul_lt_mul_right (a := t) _ (show (0 : Int) ≤ t by omega)
  omega

/-- An image of at most `2^30` by `2^30` pixels with fewer than `2^31` pixels in all meets
the bounds on the clamped tile sizes and on the number of tiles, whatever tile size is
requested. -/
theorem quantize_bounds_of_small (W H tileWidth tileHeight : Int) (hW : 1 ≤ W) (hH : 1 ≤ H)
    (hW30 : W ≤ 1073741824) (hH30 : H ≤ 1073741824) (hWH : W * H < 2147483648) :
    W + clampTileSize W tileWidth ≤ 2147483648 ∧
    H + clampTileSize H tileHeight ≤ 2147483648 ∧
    tilesAlong W (clampTileSize W tileWidth) *
      tilesAlong H (clampTileSize H tileHeight) < 2147483648 := by
  obtain ⟨cw1, cw2⟩ := clampTileSize_bounds W tileWidth hW
  obtain ⟨ch1, ch2⟩ := clampTileSize_bounds H tileHeight hH
  generalize clampTileSize W tileWidth = tw at *
  generalize clampTileSize H tileHeight = th at *
  obtain ⟨hX1, hX2, -⟩ := tilesAlong_spec W tw cw1 cw2 (by omega)
  obtain ⟨hY1, hY2, -⟩ := tilesAlong_spec H th ch1 ch2 (by omega)
  generalize tilesAlong W tw = X at *
  generalize tilesAlong H th = Y at *
  have hXW : X ≤ W := by
    have : (X - 1) * 1 ≤ (X - 1) * tw := mul_le_mul_of_nonneg_left cw1 (by omega)
    omega
  have hYH : Y ≤ H := by
    have : (Y - 1) * 1 ≤ (Y - 1) * th := mul_le_mul_of_nonneg_left ch1 (by omega)
    omega
  have hXY : X * Y ≤ W * H := mul_le_mul hXW hYH (by omega) (by omega)
  exact ⟨by omega, by omega, lt_of_le_of_lt hXY hWH⟩

theorem gridTile_contains (W H tw th : Int) (X i : Nat) (px py : Int) :
    (gridTile W H tw th X i).contains px py ↔
      (((i % X : Nat) : Int) * tw ≤ px ∧ px < min ((((i % X : Nat) : Int) + 1) * tw) W) ∧
      (((i / X : Nat) : Int) * th ≤ py ∧ py < min ((((i / X : Nat) : Int) + 1) * th) H) := by
  simp only [RenderTile.contains, gridTile]
  tauto

theorem gridTile_area (W H tw th : Int) (X i : Nat) :
    (gridTile W H tw th X i).area =
      (min ((((i % X : Nat) : Int) + 1) * tw) W - ((i % X : Nat) : Int) * tw) *
        (min ((((i / X : Nat) : Int) + 1) * th) H - ((i / X : Nat) : Int) * th) := by
  simp only [RenderTile.area, gridTile]

/-- C1 as the claim states it fails at the image 2147483647 by 1 with requested tiles of
1500000000 by 1: the second of the two tiles begins at `x = 1500000000` and gets
`end.x = -1294967296`, the `int` value of `2 * 1500000000`, so that the pixel
`(2000000000, 0)` of the image lies in no tile, and the areas sum to `-1294967296`, not to
`2147483647 * 1`. -/
theorem quantizeImage_partition_counterexample :
    (1 : Int) ≤ 2147483647 ∧ (1 : Int) ≤ 1 ∧
    ((0 : Int) ≤ 2000000000 ∧ (2000000000 : Int) < 2147483647 ∧
      (¬ ∃ i : Nat, ∃ t : RenderTile,
        (quantizeImage 2147483647 1 1500000000 1).1[i]? = some t ∧
          t.contains 2000000000 0)) ∧
    (quantizeImage 2147483647 1 1500000000 1).1.map (fun t => (t.begin.x, t.end_.x)) =
      [(0, 1500000000), (1500000000, -1294967296)] ∧
    ((quantizeImage 2147483647 1 1500000000 1).1.map RenderTile.area).sum = -1294967296 ∧
    ((quantizeImage 2147483647 1 1500000000 1).1.map RenderTile.area).sum ≠
      2147483647 * 1 := by
  have h : ∀ t ∈ (quantizeImage 2147483647 1 1500000000 1).1, ¬ t.contains 2000000000 0 := by
    decide
  refine ⟨by decide, by decide, ⟨by decide, by decide, ?_⟩, by decide, by decide, by decide⟩
  rintro ⟨i, t, ht, hc⟩
  exact h t (List.getElem?_mem ht) hc

/-- C1 with the bound that keeps the arithmetic in `int`: for `W, H ≥ 1` and a requested tile
size such that, with the clamped tile sizes `tw = max(1, min(tileWidth, W))` and
`th = max(1, min(tileHeight, H))`, the sums `W + tw` and `H + th` are at most `2^31` and the
number of tiles `ceil(W/tw) * ceil(H/th)` is below `2^31`, the tiles of `quantizeImage`
partition the image: every pixel of the image lies in the rectangle `[begin, end)` of exactly
one tile, no rectangle contains a point outside the image, and the areas of the rectangles
sum to `W * H`. -/
theorem quantizeImage_partition (W H tileWidth tileHeight : Int) (hW : 1 ≤ W) (hH : 1 ≤ H)
    (hWb : W + max 1 (min tileWidth W) ≤ 2147483648)
    (hHb : H + max 1 (min tileHeight H) ≤ 2147483648)
    (hNb : ⌈(W : ℚ) / (max 1 (min tileWidth W) : Int)⌉ *
      ⌈(H : ℚ) / (max 1 (min tileHeight H) : Int)⌉ < 2147483648) :
    (∀ px py : Int, 0 ≤ px → px < W → 0 ≤ py → py < H →
      ∃! i : Nat, ∃ t : RenderTile,
        (quantizeImage W H tileWidth tileHeight).1[i]? = some t ∧ t.contains px py) ∧
    (∀ t ∈ (quantizeImage W H tileWidth tileHeight).1, ∀ px py : Int,
      t.contains px py → 0 ≤ px ∧ px < W ∧ 0 ≤ py ∧ py < H) ∧
    ((quantizeImage W H tileWidth tileHeight).1.map RenderTile.area).sum = W * H := by
  obtain ⟨bW, bH, bN⟩ := quantize_bounds W H tileWidth tileHeight hW hH hWb hHb hNb
  rw [quantizeImage_eq W H tileWidth tileHeight hW hH bW bH bN]
  clear hWb hHb hNb bN
  obtain ⟨cw1, cw2⟩ := clampTileSize_bounds W tileWidth hW
  obtain ⟨ch1, ch2⟩ := clampTileSize_bounds H tileHeight hH
  generalize clampTileSize W tileWidth = tw at *
  generalize clampTileSize H tileHeight = th at *
  have hWi : W < 2147483648 := by omega
  have hHi : H < 2147483648 := by omega
  obtain ⟨hx1, -, -⟩ := tilesAlong_spec W tw cw1 cw2 hWi
  obtain ⟨hy1, -, -⟩ := tilesAlong_spec H th ch1 ch2 hHi
  obtain ⟨X, hX⟩ := Int.eq_ofNat_of_zero_le (show 0 ≤ tilesAlong W tw by omega)
  obtain ⟨Y, hY⟩ := Int.eq_ofNat_of_zero_le (show 0 ≤ tilesAlong H th by omega)
  have hXpos : 0 < X := by
    have : (1 : Int) ≤ (X : Int) := by rw [← hX]; exact hx1
    omega
  simp only [hX, hY, Int.toNat_ofNat]
  have hget : ∀ (i : Nat) (t : RenderTile),
      ((List.range (X * Y)).map (gridTile W H tw th X))[i]? = some t ↔
        i < X * Y ∧ t = gridTile W H tw th X i := by
    intro i t
    by_cases hi : i < X * Y
    · rw [List.getElem?_map, List.getElem?_range hi]
      simp [hi, eq_comm]
    · rw [List.getElem?_eq_none (by simp; omega)]
      simp [hi]
  refine ⟨?_, ?_, ?_⟩
  · intro px py hpx0 hpx hpy0 hpy
    obtain ⟨x0, hx0, hxa, hxb⟩ := col_exists W tw cw1 cw2 hWi px hpx0 hpx
    obtain ⟨y0, hy0, hya, hyb⟩ := col_exists H th ch1 ch2 hHi py hpy0 hpy
    rw [hX] at hx0
    rw [hY] at hy0
    have hx0' : x0 < X := by exact_mod_cast hx0
    have hy0' : y0 < Y := by exact_mod_cast hy0
    have hm : (X * y0 + x0) % X = x0 := by
      rw [Nat.mul_add_mod, Nat.mod_eq_of_lt hx0']
    have hd : (X * y0 + x0) / X = y0 := by
      rw [Nat.mul_add_div hXpos, Nat.div_eq_of_lt hx0', Nat.add_zero]
    have hlt : X * y0 + x0 < X * Y := by
      have : X * (y0 + 1) ≤ X * Y := Nat.mul_le_mul_left X hy0'
      rw [Nat.mul_succ] at this
      omega
    refine ⟨X * y0 + x0, ⟨gridTile W H tw th X (X * y0 + x0), (hget _ _).2 ⟨hlt, rfl⟩, ?_⟩, ?_⟩
    · rw [gridTile_contains, hm, hd]
      exact ⟨⟨hxa, hxb⟩, ⟨hya, hyb⟩⟩
    · rintro i ⟨t, ht, hc⟩
      obtain ⟨-, rfl⟩ := (hget i t).1 ht
      rw [gridTile_contains] at hc
      obtain ⟨⟨a1, a2⟩, ⟨b1, b2⟩⟩ := hc
      have ex : ((i % X : Nat) : Int) = (x0 : Int) :=
        col_unique tw cw1 _ _ px a1 (lt_of_lt_of_le a2 (min_le_left _ _)) hxa
          (lt_of_lt_of_le hxb (min_le_left _ _))
      have ey : ((i / X : Nat) : Int) = (y0 : Int) :=
        col_unique th ch1 _ _ py b1 (lt_of_lt_of_le b2 (min_le_left _ _)) hya
          (lt_of_lt_of_le hyb (min_le_left _ _))
      have ex' : i % X = x0 := by exact_mod_cast ex
      have ey' : i / X = y0 := by exact_mod_cast ey
      have := Nat.mod_add_div i X
      rw [ex', ey'] at this
      omega
  · intro t ht px py hc
    obtain ⟨i, -, rfl⟩ := List.mem_map.1 ht
    rw [gridTile_contains] at hc
    obtain ⟨⟨a1, a2⟩, ⟨b1, b2⟩⟩ := hc
    have hx0 : (0 : Int) ≤ ((i % X : Nat) : Int) * tw :=
      mul_nonneg (Int.ofNat_nonneg _) (by omega)
    have hy0 : (0 : Int) ≤ ((i / X : Nat) : Int) * th :=
      mul_nonneg (Int.ofNat_nonneg _) (by omega)
    exact ⟨by omega, lt_of_lt_of_le a2 (min_le_right _ _), by omega,
      lt_of_lt_of_le b2 (min_le_right _ _)⟩
  · rw [List.map_map, list_sum_map_range]
    simp only [Function.comp, gridTile_area]
    rw [sum_grid (fun x => min ((((x : Nat) : Int) + 1) * tw) W - ((x : Nat) : Int) * tw)
      (fun y => min ((((y : Nat) : Int) + 1) * th) H - ((y : Nat) : Int) * th) X Y hXpos,
      col_sum W tw cw1 cw2 hWi X hX, col_sum H th ch1 ch2 hHi Y hY]

/-- The numbers of columns and rows of the image 5 by 3 with tiles of 2 by 2. -/
theorem ceil_small_sample :
    ⌈((5 : Int) : ℚ) / (max 1 (min 2 5) : Int)⌉ = 3 ∧
    ⌈((3 : Int) : ℚ) / (max 1 (min 2 3) : Int)⌉ = 2 := by
  constructor
  · rw [← clampTileSize_eq 5 2 (by decide),
      ← tilesAlong_eq_ceil 5 _ (by decide) (by decide) (by decide)]
    decide
  · rw [← clampTileSize_eq 3 2 (by decide),
      ← tilesAlong_eq_ceil 3 _ (by decide) (by decide) (by decide)]
    decide

/-- C1 at the image 5 by 3 with requested tiles of 2 by 2. -/
theorem quantizeImage_partition_witness :
    (1 : Int) ≤ 5 ∧ (1 : Int) ≤ 3 ∧
      (5 : Int) + max 1 (min 2 5) ≤ 2147483648 ∧
      (3 : Int) + max 1 (min 2 3) ≤ 2147483648 ∧
      ⌈((5 : Int) : ℚ) / (max 1 (min 2 5) : Int)⌉ *
        ⌈((3 : Int) : ℚ) / (max 1 (min 2 3) : Int)⌉ < 2147483648 ∧
      ((quantizeImage 5 3 2 2).1.map RenderTile.area).sum = 5 * 3 :=
  have hN : ⌈((5 : Int) : ℚ) / (max 1 (min 2 5) : Int)⌉ *
      ⌈((3 : Int) : ℚ) / (max 1 (min 2 3) : Int)⌉ < 2147483648 := by
    rw [ceil_small_sample.1, ceil_small_sample.2]; decide
  ⟨by decide, by decide, by decide, by decide, hN,
    (quantizeImage_partition 5 3 2 2 (by decide) (by decide) (by decide) (by decide) hN).2.2⟩

/-! ### `getTile` -/

/-- A call of `getTile` with work left. -/
theorem getTile_some (r : Renderer) (hlen : (r.renderTiles.length : Int) = r.tileCount)
    (h0 : 0 ≤ r.finishedTileCount) (hlt : r.finishedTileCount < r.tileCount) :
    ∃ stored, r.renderTiles[r.finishedTileCount.toNat]? = some stored ∧
      getTile r = some ({ stored with tileNum := r.finishedTileCount },
        { r with renderTiles :=
                   r.renderTiles.set r.finishedTileCount.toNat { stored with isRendering := true }
                 finishedTileCount := r.finishedTileCount + 1 }) := by
  have hi : r.finishedTileCount.toNat < r.renderTiles.length := by omega
  refine ⟨r.renderTiles[r.finishedTileCount.toNat], List.getElem?_eq_getElem hi, ?_⟩
  simp [getTile, hlt, readTile, h0, List.getElem?_eq_getElem hi]

/-- A call of `getTile` with no work left. -/
theorem getTile_done (r : Renderer) (h : r.tileCount ≤ r.finishedTileCount) :
    getTile r = some (noTile, r) := by
  simp [getTile, not_lt.mpr h]

theorem getTiles_from (n : Nat) : ∀ (r : Renderer) (c : Nat),
    (r.renderTiles.length : Int) = r.tileCount → r.finishedTileCount = c →
    ∃ out r', getTiles n r = some (out, r') ∧ out.length = n ∧
      ∀ k < n, out[k]? =
        if ((c + k : Nat) : Int) < r.tileCount then
          (r.renderTiles[c + k]?).map (fun t => { t with tileNum := ((c + k : Nat) : Int) })
        else some noTile := by
  induction n with
  | zero =>
    intro r c _ _
    exact ⟨[], r, rfl, rfl, fun k hk => absurd hk (Nat.not_lt_zero k)⟩
  | succ n ih =>
    intro r c hlen hc
    by_cases hlt : r.finishedTileCount < r.tileCount
    · obtain ⟨stored, hst, hg⟩ := getTile_some r hlen (by omega) hlt
      have hcn : r.finishedTileCount.toNat = c := by omega
      rw [hcn] at hst hg
      obtain ⟨out, r', ho, hl, hk⟩ := ih
        { r with renderTiles := r.renderTiles.set c { stored with isRendering := true }
                 finishedTileCount := r.finishedTileCount + 1 } (c + 1)
        (by simpa using hlen) (by simp [hc])
      refine ⟨{ stored with tileNum := r.finishedTileCount } :: out, r',
        by simp [getTiles, hg, ho], by simp [hl], ?_⟩
      intro k hkn
      cases k with
      | zero =>
        have : ((c : Nat) : Int) < r.tileCount := by omega
        simp [hst, this, hc]
      | succ k =>
        have := hk k (by omega)
        simp only [List.getElem?_cons_succ, this]
        rw [List.getElem?_set_ne (by omega)]
        have e : c + 1 + k = c + (k + 1) := by omega
        rw [e]
    · have hg := getTile_done r (by omega)
      obtain ⟨out, r', ho, hl, hk⟩ := ih r c hlen hc
      refine ⟨noTile :: out, r', by simp [getTiles, hg, ho], by simp [hl], ?_⟩
      intro k hkn
      have hge : ¬ ((c + k : Nat) : Int) < r.tileCount := by push_cast; omega
      rw [if_neg hge]
      cases k with
      | zero => simp
      | succ k =>
        have := hk k (by omega)
        rw [if_neg (by push_cast; omega)] at this
        simpa using this

/-- C2: for a renderer holding `N = tileCount` tiles whose hand-out counter is 0, `getTile`
called `n` times in a row returns, in call `k < N`, a copy of `renderTiles[k]` with
`tileNum = k`, and in every call `k ≥ N` the tile with `tileNum = -1` and all other fields
zero; so the index `i` in `[0, N)` is handed out in call `i` and in no other call. -/
theorem getTile_sequential (r : Renderer) (n : Nat)
    (hlen : (r.renderTiles.length : Int) = r.tileCount) (h0 : r.finishedTileCount = 0) :
    ∃ out r', getTiles n r = some (out, r') ∧ out.length = n ∧
      (∀ k < n, (k : Int) < r.tileCount →
        ∃ t, r.renderTiles[k]? = some t ∧ out[k]? = some { t with tileNum := (k : Int) }) ∧
      (∀ k < n, r.tileCount ≤ (k : Int) → out[k]? = some noTile) ∧
      (noTile.tileNum = -1 ∧ { noTile with tileNum := 0 } = zeroTile) ∧
      (∀ i : Int, 0 ≤ i → i < r.tileCount → ∀ k < n,
        ((∃ t, out[k]? = some t ∧ t.tileNum = i) ↔ (k : Int) = i)) := by
  obtain ⟨out, r', ho, hl, hk⟩ := getTiles_from n r 0 hlen (by simpa using h0)
  simp only [Nat.zero_add] at hk
  have h1 : ∀ k < n, (k : Int) < r.tileCount →
      ∃ t, r.renderTiles[k]? = some t ∧ out[k]? = some { t with tileNum := (k : Int) } := by
    intro k hkn hkt
    have hi : k < r.renderTiles.length := by omega
    refine ⟨r.renderTiles[k], List.getElem?_eq_getElem hi, ?_⟩
    rw [hk k hkn, if_pos hkt, List.getElem?_eq_getElem hi]
    rfl
  have h2 : ∀ k < n, r.tileCount ≤ (k : Int) → out[k]? = some noTile := by
    intro k hkn hkt
    rw [hk k hkn, if_neg (by omega)]
  refine ⟨out, r', ho, hl, h1, h2, ⟨rfl, rfl⟩, ?_⟩
  intro i hi0 hiN k hkn
  by_cases hkt : (k : Int) < r.tileCount
  · obtain ⟨t, -, hout⟩ := h1 k hkn hkt
    constructor
    · rintro ⟨t', ht', rfl⟩
      rw [hout] at ht'
      cases ht'
      rfl
    · intro e
      exact ⟨_, hout, e⟩
  · have hout := h2 k hkn (by omega)
    constructor
    · rintro ⟨t', ht', rfl⟩
      rw [hout] at ht'
      cases ht'
      simp [noTile] at hi0
    · intro e
      omega

/-- C2 for two tiles and four calls. -/
theorem getTile_sequential_witness :
    ∃ out r', getTiles 4 ⟨numberedTiles 2, 2, 0⟩ = some (out, r') ∧ out.length = 4 :=
  match getTile_sequential ⟨numberedTiles 2, 2, 0⟩ 4 (by decide) rfl with
  | ⟨out, r', h, hl, _⟩ => ⟨out, r', h, hl⟩

/-- C8: for a renderer holding `tileCount` tiles with `0 ≤ finishedTileCount ≤ tileCount`, a
call of `getTile` returns, leaves `tileCount` as it is, leaves the counter at least as large
as before and at most `tileCount`, and raises it by exactly 1 if and only if the tile returned
is not the "no more work" tile. -/
theorem getTile_counter (r : Renderer) (hlen : (r.renderTiles.length : Int) = r.tileCount)
    (h0 : 0 ≤ r.finishedTileCount) (h1 : r.finishedTileCount ≤ r.tileCount) :
    ∃ tile r', getTile r = some (tile, r') ∧
      r'.tileCount = r.tileCount ∧
      r.finishedTileCount ≤ r'.finishedTileCount ∧
      r'.finishedTileCount ≤ r'.tileCount ∧
      (r'.finishedTileCount = r.finishedTileCount + 1 ↔ tile ≠ noTile) ∧
      (r'.finishedTileCount = r.finishedTileCount + 1 ↔ tile.tileNum ≠ -1) ∧
      (r'.finishedTileCount = r.finishedTileCount ∨
        r'.finishedTileCount = r.finishedTileCount + 1) := by
  by_cases hlt : r.finishedTileCount < r.tileCount
  · obtain ⟨stored, -, hg⟩ := getTile_some r hlen h0 hlt
    refine ⟨_, _, hg, rfl, by simp, by simp; omega, ?_, ?_, Or.inr rfl⟩
    · simp only [true_iff]
      intro h
      have := congrArg RenderTile.tileNum h
      simp [noTile] at this
      omega
    · simp only [true_iff]
      show r.finishedTileCount ≠ -1
      omega
  · have hg := getTile_done r (by omega)
    refine ⟨_, _, hg, rfl, le_rfl, h1, ?_, ?_, Or.inl rfl⟩
    · simp
    · simp [noTile, zeroTile]

/-- C8 for a renderer with two tiles, one of them handed out. -/
theorem getTile_counter_witness :
    ∃ tile r', getTile ⟨numberedTiles 2, 2, 1⟩ = some (tile, r') ∧ r'.tileCount = 2 :=
  match getTile_counter ⟨numberedTiles 2, 2, 1⟩ (by decide) (by decide) (by decide) with
  | ⟨tile, r', h, ht, _⟩ => ⟨tile, r', h, ht⟩

/-! ### Reordering -/

theorem forLoopM_inv {σ : Type} (body : Nat → σ → Option σ) (Inv : Nat → σ → Prop) (n : Nat)
    (s0 : σ) (h0 : Inv 0 s0)
    (hstep : ∀ i s, i < n → Inv i s → ∃ s', body i s = some s' ∧ Inv (i + 1) s') :
    ∃ s, forLoopM body n s0 = some s ∧ Inv n s := by
  induction n with
  | zero => exact ⟨s0, rfl, h0⟩
  | succ n ih =>
    obtain ⟨s, hs, hi⟩ := ih (fun i s hi => hstep i s (by omega))
    obtain ⟨s', hb, hi'⟩ := hstep n s (by omega) hi
    exact ⟨s', by simp [forLoopM, hs, hb], hi'⟩

theorem perm_of_index {α : Type} (l l' : List α) (σ : Nat → Nat) (hlen : l'.length = l.length)
    (hσ : ∀ j < l.length, σ j < l.length)
    (hinj : ∀ i j, i < l.length → j < l.length → σ i = σ j → i = j)
    (hget : ∀ j < l.length, l'[j]? = l[σ j]?) : l'.Perm l := by
  let τ : Fin l.length → Fin l.length := fun k => ⟨σ k, hσ k k.2⟩
  have hτ : Function.Injective τ := fun a b h =>
    Fin.ext (hinj a b a.2 b.2 (by simpa [τ] using congrArg Fin.val h))
  have hb : Function.Bijective τ := Finite.injective_iff_bijective.mp hτ
  have e : l' = List.ofFn (l.get ∘ (Equiv.ofBijective τ hb)) := by
    apply List.ext_getElem?
    intro j
    by_cases hj : j < l.length
    · rw [hget j hj, List.getElem?_eq_getElem (hσ j hj),
        List.getElem?_eq_getElem (by simpa using hj), List.getElem_ofFn]
      simp [τ]
    · rw [List.getElem?_eq_none (by omega), List.getElem?_eq_none (by simp; omega)]
  rw [e]
  have := Equiv.Perm.ofFn_comp_perm (Equiv.ofBijective τ hb) l.get
  rwa [List.ofFn_get] at this

theorem writeTile_natCast (tiles : List RenderTile) (i : Nat) (t : RenderTile)
    (h : i < tiles.length) : writeTile tiles (i : Int) t = some (tiles.set i t) := by
  simp [writeTile, h]

/-- One iteration `tempArray[i] = tiles[k]` of a reordering loop. -/
theorem temp_step (tiles temp : List RenderTile) (i : Nat) (σ : Nat → Nat) (k : Int)
    (hk : k = (σ i : Nat)) (hσ : σ i < tiles.length) (hi : i < temp.length)
    (hprev : ∀ j < i, temp[j]? = tiles[σ j]?) :
    ∃ t temp', readTile tiles k = some t ∧ writeTile temp i t = some temp' ∧
      temp'.length = temp.length ∧ ∀ j < i + 1, temp'[j]? = tiles[σ j]? := by
  refine ⟨tiles[σ i], temp.set i tiles[σ i], ?_, writeTile_natCast temp i _ hi, by simp, ?_⟩
  · rw [hk, readTile_natCast, List.getElem?_eq_getElem hσ]
  · intro j hj
    by_cases hji : j = i
    · subst hji
      rw [List.getElem?_set_self hi, List.getElem?_eq_getElem hσ]
    · rw [List.getElem?_set_ne (by omega)]
      exact hprev j (by omega)

theorem reorderTopToBottom_get (tiles : List RenderTile) (n : Nat) (hlen : tiles.length = n) :
    ∃ out, reorderTopToBottom tiles n = some out ∧ out.length = n ∧
      ∀ j < n, out[j]? = tiles[n - 1 - j]? := by
  obtain ⟨s, hs, h1, h2, h3⟩ := forLoopM_inv
    (fun i (s : TopToBottomState) => do
      let t ← readTile tiles s.endIndex
      let tempArray ← writeTile s.tempArray i t
      pure { endIndex := s.endIndex - 1, tempArray := tempArray })
    (fun i s => s.endIndex = (n : Int) - 1 - i ∧ s.tempArray.length = n ∧
      ∀ j < i, s.tempArray[j]? = tiles[n - 1 - j]?)
    n { endIndex := (n : Int) - 1, tempArray := List.replicate n zeroTile }
    ⟨by simp, by simp, fun j hj => absurd hj (Nat.not_lt_zero j)⟩
    (by
      rintro i s hi ⟨e1, e2, e3⟩
      obtain ⟨t, temp', ht, hw, hl, hg⟩ := temp_step tiles s.tempArray i (fun j => n - 1 - j)
        s.endIndex (by show s.endIndex = ((n - 1 - i : Nat) : Int); rw [e1]; omega)
        (by show n - 1 - i < tiles.length; omega) (by omega) e3
      refine ⟨{ endIndex := s.endIndex - 1, tempArray := temp' }, by simp [ht, hw], ?_, ?_, hg⟩
      · simp only [e1]; push_cast; ring
      · simp only [hl, e2])
  refine ⟨s.tempArray, ?_, h2, h3⟩
  simp only [reorderTopToBottom, Int.toNat_ofNat]
  rw [hs]
  rfl

theorem fromMiddle_start (n : Nat) : ⌈(((n : Int).tdiv 2 : Int) : ℚ)⌉ = ((n / 2 : Nat) : Int) := by
  rw [Int.ceil_intCast, Int.tdiv_eq_ediv (by omega) (by omega)]
  omega

theorem reorderFromMiddle_get (tiles : List RenderTile) (n : Nat) (hlen : tiles.length = n) :
    ∃ out, reorderFromMiddle tiles n = some out ∧ out.length = n ∧
      ∀ j < n, out[j]? = tiles[if j % 2 = 0 then n / 2 + j / 2 else n / 2 - 1 - j / 2]? := by
  obtain ⟨s, hs, -, -, -, h2, h3⟩ := forLoopM_inv
    (fun i (s : FromMiddleState) =>
      if s.isRight then do
        let t ← readTile tiles s.midRight
        let tempArray ← writeTile s.tempArray i t
        pure { s with tempArray := tempArray, midRight := s.midRight + 1, isRight := false }
      else do
        let t ← readTile tiles s.midLeft
        let tempArray ← writeTile s.tempArray i t
        pure { s with tempArray := tempArray, midLeft := s.midLeft - 1, isRight := true })
    (fun i s => s.isRight = decide (i % 2 = 0) ∧
      s.midRight = ((n / 2 : Nat) : Int) + ((i + 1) / 2 : Nat) ∧
      s.midLeft = ((n / 2 : Nat) : Int) - 1 - (i / 2 : Nat) ∧
      s.tempArray.length = n ∧
      ∀ j < i, s.tempArray[j]? =
        tiles[if j % 2 = 0 then n / 2 + j / 2 else n / 2 - 1 - j / 2]?)
    n { midLeft := ((n / 2 : Nat) : Int) - 1, midRight := ((n / 2 : Nat) : Int), isRight := true,
        tempArray := List.replicate n zeroTile }
    ⟨by simp, by simp, by simp, by simp, fun j hj => absurd hj (Nat.not_lt_zero j)⟩
    (by
      rintro i s hi ⟨e0, e1, e2, e3, e4⟩
      by_cases hpar : i % 2 = 0
      · obtain ⟨t, temp', ht, hw, hl, hg⟩ := temp_step tiles s.tempArray i
          (fun j => if j % 2 = 0 then n / 2 + j / 2 else n / 2 - 1 - j / 2)
          s.midRight (by rw [e1]; simp only [hpar, if_true]; omega)
          (by simp only [hpar, if_true]; omega) (by omega) e4
        have hr : s.isRight = true := by simp [e0, hpar]
        refine ⟨{ s with tempArray := temp', midRight := s.midRight + 1, isRight := false },
          by simp [hr, ht, hw], ?_, ?_, ?_, ?_, hg⟩
        · simp; omega
        · simp only [e1]; omega
        · simp only [e2]; omega
        · simp only [hl, e3]
      · obtain ⟨t, temp', ht, hw, hl, hg⟩ := temp_step tiles s.tempArray i
          (fun j => if j % 2 = 0 then n / 2 + j / 2 else n / 2 - 1 - j / 2)
          s.midLeft (by rw [e2]; simp only [hpar, if_false]; omega)
          (by simp only [hpar, if_false]; omega) (by omega) e4
        have hr : s.isRight = false := by simp [e0, hpar]
        refine ⟨{ s with tempArray := temp', midLeft := s.midLeft - 1, isRight := true },
          by simp [hr, ht, hw], ?_, ?_, ?_, ?_, hg⟩
        · simp; omega
        · simp only [e1]; omega
        · simp only [e2]; omega
        · simp only [hl, e3])
  refine ⟨s.tempArray, ?_, h2, h3⟩
  simp only [reorderFromMiddle, fromMiddleInit, Int.toNat_ofNat, fromMiddle_start]
  rw [hs]
  rfl

theorem reorderToMiddle_get (tiles : List RenderTile) (n : Nat) (hlen : tiles.length = n) :
    ∃ out, reorderToMiddle tiles n = some out ∧ out.length = n ∧
      ∀ j < n, out[j]? = tiles[if j % 2 = 0 then n - 1 - j / 2 else j / 2]? := by
  obtain ⟨s, hs, -, -, -, h2, h3⟩ := forLoopM_inv
    (fun i (s : ToMiddleState) =>
      if s.isRight then do
        let t ← readTile tiles s.right
        let tempArray ← writeTile s.tempArray i t
        pure { s with tempArray := tempArray, right := s.right - 1, isRight := false }
      else do
        let t ← readTile tiles s.left
        let tempArray ← writeTile s.tempArray i t
        pure { s with tempArray := tempArray, left := s.left + 1, isRight := true })
    (fun i s => s.isRight = decide (i % 2 = 0) ∧
      s.right = (n : Int) - 1 - ((i + 1) / 2 : Nat) ∧
      s.left = ((i / 2 : Nat) : Int) ∧
      s.tempArray.length = n ∧
      ∀ j < i, s.tempArray[j]? = tiles[if j % 2 = 0 then n - 1 - j / 2 else j / 2]?)
    n { left := 0, right := (n : Int) - 1, isRight := true,
        tempArray := List.replicate n zeroTile }
    ⟨by simp, by simp, by simp, by simp, fun j hj => absurd hj (Nat.not_lt_zero j)⟩
    (by
      rintro i s hi ⟨e0, e1, e2, e3, e4⟩
      by_cases hpar : i % 2 = 0
      · obtain ⟨t, temp', ht, hw, hl, hg⟩ := temp_step tiles s.tempArray i
          (fun j => if j % 2 = 0 then n - 1 - j / 2 else j / 2)
          s.right (by rw [e1]; simp only [hpar, if_true]; omega)
          (by simp only [hpar, if_true]; omega) (by omega) e4
        have hr : s.isRight = true := by simp [e0, hpar]
        refine ⟨{ s with tempArray := temp', right := s.right - 1, isRight := false },
          by simp [hr, ht, hw], ?_, ?_, ?_, ?_, hg⟩
        · simp; omega
        · simp only [e1]; omega
        · simp only [e2]; omega
        · simp only [hl, e3]
      · obtain ⟨t, temp', ht, hw, hl, hg⟩ := temp_step tiles s.tempArray i
          (fun j => if j % 2 = 0 then n - 1 - j / 2 else j / 2)
          s.left (by rw [e2]; simp only [hpar, if_false])
          (by simp only [hpar, if_false]; omega) (by omega) e4
        have hr : s.isRight = false := by simp [e0, hpar]
        refine ⟨{ s with tempArray := temp', left := s.left + 1, isRight := true },
          by simp [hr, ht, hw], ?_, ?_, ?_, ?_, hg⟩
        · simp; omega
        · simp only [e1]; omega
        · simp only [e2]; omega
        · simp only [hl, e3])
  refine ⟨s.tempArray, ?_, h2, h3⟩
  simp only [reorderToMiddle, Int.toNat_ofNat]
  rw [hs]
  rfl


/-- Swapping two entries of a list permutes it. -/
theorem swap_perm {α : Type} (l : List α) (i r : Nat) (hi : i < l.length) (hr : r < l.length) :
    ((l.set i l[r]).set r l[i]).Perm l := by
  apply perm_of_index l _ (fun j => if j = r then i else if j = i then r else j)
  · simp
  · intro j hj
    show (if j = r then i else if j = i then r else j) < l.length
    split_ifs <;> omega
  · intro a b ha hb
    show (if a = r then i else if a = i then r else a) =
      (if b = r then i else if b = i then r else b) → a = b
    split_ifs <;> omega
  · intro j hj
    by_cases hjr : j = r
    · subst hjr
      rw [List.getElem?_set_self (by simpa using hj)]
      simp [List.getElem?_eq_getElem hi]
    · rw [List.getElem?_set_ne (by omega)]
      by_cases hji : j = i
      · subst hji
        rw [List.getElem?_set_self hj]
        simp [hjr, List.getElem?_eq_getElem hr]
      · rw [List.getElem?_set_ne (by omega)]
        simp [hjr, hji]

theorem reorderRandom_perm (tiles : List RenderTile) (n : Nat) (hlen : tiles.length = n)
    (random : Nat → Nat) (hrand : ∀ i < n, random i < n) :
    ∃ out, reorderRandom tiles n random = some out ∧ out.Perm tiles := by
  have := forLoopM_inv
    (fun i (tiles : List RenderTile) => do
      let temp ← readTile tiles i
      let other ← readTile tiles (random i)
      let tiles ← writeTile tiles i other
      writeTile tiles (random i) temp)
    (fun _ s => s.Perm tiles) n tiles (List.Perm.refl _)
    (by
      intro i s hi hs
      have hl : s.length = n := by rw [hs.length_eq, hlen]
      have hi' : i < s.length := by omega
      have hr' : random i < s.length := by have := hrand i hi; omega
      refine ⟨(s.set i s[random i]).set (random i) s[i], ?_, (swap_perm s i _ hi' hr').trans hs⟩
      have h1 : readTile s (i : Int) = some s[i] := by
        rw [readTile_natCast, List.getElem?_eq_getElem hi']
      have h2 : readTile s (random i : Int) = some s[random i] := by
        rw [readTile_natCast, List.getElem?_eq_getElem hr']
      have h3 := writeTile_natCast s i s[random i] hi'
      have h4 := writeTile_natCast (s.set i s[random i]) (random i) s[i] (by simpa using hr')
      simp [h1, h2, h3, h4])
  simpa only [reorderRandom, Int.toNat_ofNat] using this

/-- C4: for a tile array of length `count` (any `count`, so also `count ≥ 1`) each of
`reorderTopToBottom`, `reorderRandom` (for any drawn indices inside `[0, count)`),
`reorderFromMiddle` and `reorderToMiddle`, and `reorderTiles` for every order, returns with
every array access inside its array, and the array returned has the same length and is a
permutation of the input: the same multiset of tiles. -/
theorem reorder_permutation (tiles : List RenderTile) (tileCount : Int)
    (hlen : (tiles.length : Int) = tileCount) (random : Nat → Nat)
    (hrand : ∀ i : Nat, (i : Int) < tileCount → (random i : Int) < tileCount) :
    (∃ out, reorderTopToBottom tiles tileCount = some out ∧ out.length = tiles.length ∧
      out.Perm tiles ∧ (out : Multiset RenderTile) = (tiles : Multiset RenderTile)) ∧
    (∃ out, reorderRandom tiles tileCount random = some out ∧ out.length = tiles.length ∧
      out.Perm tiles ∧ (out : Multiset RenderTile) = (tiles : Multiset RenderTile)) ∧
    (∃ out, reorderFromMiddle tiles tileCount = some out ∧ out.length = tiles.length ∧
      out.Perm tiles ∧ (out : Multiset RenderTile) = (tiles : Multiset RenderTile)) ∧
    (∃ out, reorderToMiddle tiles tileCount = some out ∧ out.length = tiles.length ∧
      out.Perm tiles ∧ (out : Multiset RenderTile) = (tiles : Multiset RenderTile)) ∧
    (∀ tileOrder : RenderOrder,
      ∃ out, reorderTiles tiles tileCount tileOrder random = some out ∧
        out.length = tiles.length ∧ out.Perm tiles ∧
        (out : Multiset RenderTile) = (tiles : Multiset RenderTile)) := by
  subst hlen
  have hT : ∃ out, reorderTopToBottom tiles (tiles.length : Int) = some out ∧
      out.length = tiles.length ∧ out.Perm tiles ∧
      (out : Multiset RenderTile) = (tiles : Multiset RenderTile) := by
    obtain ⟨out, ho, hl, hg⟩ := reorderTopToBottom_get tiles tiles.length rfl
    have hp : out.Perm tiles := by
      apply perm_of_index tiles out (fun j => tiles.length - 1 - j) hl _ _ hg
      · intro j hj
        show tiles.length - 1 - j < tiles.length
        omega
      · intro a b ha hb
        show tiles.length - 1 - a = tiles.length - 1 - b → a = b
        omega
    exact ⟨out, ho, hl, hp, Multiset.coe_eq_coe.mpr hp⟩
  have hR : ∃ out, reorderRandom tiles (tiles.length : Int) random = some out ∧
      out.length = tiles.length ∧ out.Perm tiles ∧
      (out : Multiset RenderTile) = (tiles : Multiset RenderTile) := by
    obtain ⟨out, ho, hp⟩ := reorderRandom_perm tiles tiles.length rfl random
      (fun i hi => by exact_mod_cast hrand i (by exact_mod_cast hi))
    exact ⟨out, ho, hp.length_eq, hp, Multiset.coe_eq_coe.mpr hp⟩
  have hF : ∃ out, reorderFromMiddle tiles (tiles.length : Int) = some out ∧
      out.length = tiles.length ∧ out.Perm tiles ∧
      (out : Multiset RenderTile) = (tiles : Multiset RenderTile) := by
    obtain ⟨out, ho, hl, hg⟩ := reorderFromMiddle_get tiles tiles.length rfl
    have hp : out.Perm tiles := by
      apply perm_of_index tiles out
        (fun j => if j % 2 = 0 then tiles.length / 2 + j / 2 else tiles.length / 2 - 1 - j / 2)
        hl _ _ hg
      · intro j hj
        show (if j % 2 = 0 then tiles.length / 2 + j / 2 else tiles.length / 2 - 1 - j / 2) <
          tiles.length
        split_ifs <;> omega
      · intro a b ha hb
        show (if a % 2 = 0 then tiles.length / 2 + a / 2 else tiles.length / 2 - 1 - a / 2) =
          (if b % 2 = 0 then tiles.length / 2 + b / 2 else tiles.length / 2 - 1 - b / 2) → a = b
        split_ifs <;> omega
    exact ⟨out, ho, hl, hp, Multiset.coe_eq_coe.mpr hp⟩
  have hM : ∃ out, reorderToMiddle tiles (tiles.length : Int) = some out ∧
      out.length = tiles.length ∧ out.Perm tiles ∧
      (out : Multiset RenderTile) = (tiles : Multiset RenderTile) := by
    obtain ⟨out, ho, hl, hg⟩ := reorderToMiddle_get tiles tiles.length rfl
    have hp : out.Perm tiles := by
      apply perm_of_index tiles out
        (fun j => if j % 2 = 0 then tiles.length - 1 - j / 2 else j / 2) hl _ _ hg
      · intro j hj
        show (if j % 2 = 0 then tiles.length - 1 - j / 2 else j / 2) < tiles.length
        split_ifs <;> omega
      · intro a b ha hb
        show (if a % 2 = 0 then tiles.length - 1 - a / 2 else a / 2) =
          (if b % 2 = 0 then tiles.length - 1 - b / 2 else b / 2) → a = b
        split_ifs <;> omega
    exact ⟨out, ho, hl, hp, Multiset.coe_eq_coe.mpr hp⟩
  refine ⟨hT, hR, hF, hM, ?_⟩
  intro tileOrder
  cases tileOrder
  · exact hT
  · exact hF
  · exact hM
  · exact hR
  · exact ⟨tiles, rfl, rfl, List.Perm.refl _, rfl⟩

/-- C4 for five numbered tiles and the drawn indices 3, 3, 0, 4, 1. -/
theorem reorder_permutation_witness :
    ∃ out, reorderRandom (numberedTiles 5) 5 (fun i => [3, 3, 0, 4, 1].getD i 0) = some out ∧
      out.length = (numberedTiles 5).length ∧ out.Perm (numberedTiles 5) :=
  match (reorder_permutation (numberedTiles 5) 5 (by decide)
      (fun i => [3, 3, 0, 4, 1].getD i 0)
      (fun i hi => by
        have : i = 0 ∨ i = 1 ∨ i = 2 ∨ i = 3 ∨ i = 4 := by omega
        rcases this with rfl | rfl | rfl | rfl | rfl <;> decide)).2.1 with
  | ⟨out, h, hl, hp, _⟩ => ⟨out, h, hl, hp⟩

/-- C6, the claim as stated fails: on the five tiles `[0,1,2,3,4]` the loop of
`reorderFromMiddle` starts at `midRight = 2`, `midLeft = 1`, not at `3` and `2`, and the order
emitted is `[2,1,3,0,4]`, not `[3,2,4,1,0]`. -/
theorem reorderFromMiddle_five_counterexample :
    (fromMiddleInit 5).midRight ≠ ⌈((5 : Int) : ℚ) / 2⌉ ∧
      (fromMiddleInit 5).midRight ≠ 3 ∧ (fromMiddleInit 5).midLeft ≠ 2 ∧
      (reorderFromMiddle (numberedTiles 5) 5).map (fun l => l.map RenderTile.tileNum) ≠
        some [3, 2, 4, 1, 0] ∧
      (reorderFromMiddle (numberedTiles 5) 5).map (fun l => l.map RenderTile.tileNum) =
        some [2, 1, 3, 0, 4] := by
  have hceil : ⌈((5 : Int) : ℚ) / 2⌉ = 3 := by
    rw [Int.ceil_eq_iff]
    norm_num
  have hmid : (fromMiddleInit 5).midRight = 2 := by decide
  refine ⟨?_, by decide⟩
  rw [hceil, hmid]
  decide

/-- C6 as amended: for a tile array of any length `count`, so also for `count ≥ 1`,
`reorderFromMiddle` starts at
`midRight = floor(count / 2)` (the quotient of two `int`s, on which `ceil` changes nothing),
`midLeft = midRight - 1`, and emits `tiles[midRight++]` at the even positions and
`tiles[midLeft--]` at the odd ones, starting with right: position `2k` holds
`tiles[count/2 + k]` and position `2k+1` holds `tiles[count/2 - 1 - k]`. On the five tiles
`[0,1,2,3,4]` it starts at `midRight = 2`, `midLeft = 1` and emits `[2,1,3,0,4]`. -/
theorem reorderFromMiddle_order (tiles : List RenderTile) (tileCount : Int)
    (hlen : (tiles.length : Int) = tileCount) :
    (fromMiddleInit tileCount).midRight = tileCount / 2 ∧
    (fromMiddleInit tileCount).midLeft = tileCount / 2 - 1 ∧
    (fromMiddleInit tileCount).isRight = true ∧
    (∃ out, reorderFromMiddle tiles tileCount = some out ∧ out.length = tiles.length ∧
      (∀ k : Nat, 2 * k < tiles.length →
        ∃ t, out[2 * k]? = some t ∧ tiles[tiles.length / 2 + k]? = some t) ∧
      (∀ k : Nat, 2 * k + 1 < tiles.length →
        ∃ t, out[2 * k + 1]? = some t ∧ tiles[tiles.length / 2 - 1 - k]? = some t ∧
          k + 1 ≤ tiles.length / 2)) ∧
    ((fromMiddleInit 5).midRight = 2 ∧ (fromMiddleInit 5).midLeft = 1 ∧
      (reorderFromMiddle (numberedTiles 5) 5).map (fun l => l.map RenderTile.tileNum) =
        some [2, 1, 3, 0, 4]) := by
  subst hlen
  have hs := fromMiddle_start tiles.length
  refine ⟨?_, ?_, rfl, ?_, by decide⟩
  · simp only [fromMiddleInit, hs]; omega
  · simp only [fromMiddleInit, hs]; omega
  · obtain ⟨out, ho, hl, hg⟩ := reorderFromMiddle_get tiles tiles.length rfl
    refine ⟨out, ho, hl, ?_, ?_⟩
    · intro k hk
      have h := hg (2 * k) hk
      have e : (if 2 * k % 2 = 0 then tiles.length / 2 + 2 * k / 2
          else tiles.length / 2 - 1 - 2 * k / 2) = tiles.length / 2 + k := by
        split_ifs <;> omega
      rw [e] at h
      have hb : tiles.length / 2 + k < tiles.length := by omega
      exact ⟨tiles[tiles.length / 2 + k], by rw [h, List.getElem?_eq_getElem hb],
        List.getElem?_eq_getElem hb⟩
    · intro k hk
      have h := hg (2 * k + 1) hk
      have e : (if (2 * k + 1) % 2 = 0 then tiles.length / 2 + (2 * k + 1) / 2
          else tiles.length / 2 - 1 - (2 * k + 1) / 2) = tiles.length / 2 - 1 - k := by
        split_ifs <;> omega
      rw [e] at h
      have hb : tiles.length / 2 - 1 - k < tiles.length := by omega
      exact ⟨tiles[tiles.length / 2 - 1 - k], by rw [h, List.getElem?_eq_getElem hb],
        List.getElem?_eq_getElem hb, by omega⟩

/-- C6 as amended, at four numbered tiles. -/
theorem reorderFromMiddle_order_witness :
    (fromMiddleInit 4).midRight = 4 / 2 ∧ (fromMiddleInit 4).midLeft = 4 / 2 - 1 :=
  match reorderFromMiddle_order (numberedTiles 4) 4 (by decide) with
  | ⟨h1, h2, _⟩ => ⟨h1, h2⟩

/-- C7: for a tile array of any length `count`, so also for `count ≥ 1`, `reorderToMiddle`
returns the array whose
position `2k` holds `tiles[count-1-k]` and whose position `2k+1` holds `tiles[k]`; on the five
tiles `[0,1,2,3,4]` it emits `[4,0,3,1,2]`. -/
theorem reorderToMiddle_order (tiles : List RenderTile) (tileCount : Int)
    (hlen : (tiles.length : Int) = tileCount) :
    (∃ out, reorderToMiddle tiles tileCount = some out ∧ out.length = tiles.length ∧
      (∀ k : Nat, 2 * k < tiles.length →
        ∃ t, out[2 * k]? = some t ∧ tiles[tiles.length - 1 - k]? = some t) ∧
      (∀ k : Nat, 2 * k + 1 < tiles.length →
        ∃ t, out[2 * k + 1]? = some t ∧ tiles[k]? = some t)) ∧
    (reorderToMiddle (numberedTiles 5) 5).map (fun l => l.map RenderTile.tileNum) =
      some [4, 0, 3, 1, 2] := by
  subst hlen
  refine ⟨?_, by decide⟩
  obtain ⟨out, ho, hl, hg⟩ := reorderToMiddle_get tiles tiles.length rfl
  refine ⟨out, ho, hl, ?_, ?_⟩
  · intro k hk
    have h := hg (2 * k) hk
    have e : (if 2 * k % 2 = 0 then tiles.length - 1 - 2 * k / 2 else 2 * k / 2) =
        tiles.length - 1 - k := by
      split_ifs <;> omega
    rw [e] at h
    have hb : tiles.length - 1 - k < tiles.length := by omega
    exact ⟨tiles[tiles.length - 1 - k], by rw [h, List.getElem?_eq_getElem hb],
      List.getElem?_eq_getElem hb⟩
  · intro k hk
    have h := hg (2 * k + 1) hk
    have e : (if (2 * k + 1) % 2 = 0 then tiles.length - 1 - (2 * k + 1) / 2
        else (2 * k + 1) / 2) = k := by
      split_ifs <;> omega
    rw [e] at h
    have hb : k < tiles.length := by omega
    exact ⟨tiles[k], by rw [h, List.getElem?_eq_getElem hb], List.getElem?_eq_getElem hb⟩

/-- C7 at five numbered tiles. -/
theorem reorderToMiddle_order_witness :
    ∃ out, reorderToMiddle (numberedTiles 5) 5 = some out ∧
      out.length = (numberedTiles 5).length :=
  match (reorderToMiddle_order (numberedTiles 5) 5 (by decide)).1 with
  | ⟨out, h, hl, _⟩ => ⟨out, h, hl⟩

/-! ### Tile fields and the frame of `getTile` -/

/-- C15, the code at `quantizeImage(410, 300, 100, 100)`: the tile at index 4, the last column
of the first row, has the rectangle `[400, 410)` along x, of width 10, and the field
`width = 100`; the fields `width * height` sum to `150000`, not to `410 * 300 = 123000`. -/
theorem quantizeImage_trailing_width :
    (readTile (quantizeImage 410 300 100 100).1 4).map
        (fun t => (t.begin.x, t.end_.x, t.width, t.height)) = some (400, 410, 100, 100) ∧
    (readTile (quantizeImage 410 300 100 100).1 4).map (fun t => t.end_.x - t.begin.x)
      = some 10 ∧
    ((quantizeImage 410 300 100 100).1.map (fun t => t.width * t.height)).sum = 150000 ∧
    ((quantizeImage 410 300 100 100).1.map RenderTile.area).sum = 410 * 300 := by
  decide

/-- Every tile of `quantizeImage` has the clamped tile size in its fields `width` and
`height`, whatever its rectangle is. -/
theorem quantizeImage_width (W H tileWidth tileHeight : Int) (hW : 1 ≤ W) (hH : 1 ≤ H)
    (hWb : W + clampTileSize W tileWidth ≤ 2147483648)
    (hHb : H + clampTileSize H tileHeight ≤ 2147483648)
    (hNb : tilesAlong W (clampTileSize W tileWidth) *
      tilesAlong H (clampTileSize H tileHeight) < 2147483648) :
    ∀ t ∈ (quantizeImage W H tileWidth tileHeight).1,
      t.width = clampTileSize W tileWidth ∧ t.height = clampTileSize H tileHeight := by
  rw [quantizeImage_eq W H tileWidth tileHeight hW hH hWb hHb hNb]
  intro t ht
  obtain ⟨i, -, rfl⟩ := List.mem_map.1 ht
  exact ⟨rfl, rfl⟩

/-- C16: for a renderer holding `tileCount` tiles, when `finishedTileCount = k` with
`0 ≤ k < tileCount` a call of `getTile` changes `renderTiles[k].isRendering` to true and the
counter to `k + 1` and nothing else: the stored tile keeps its `tileNum` and its other fields,
every other stored tile, the length of the array and `tileCount` stay as they are, and the
tile returned is the stored tile as it was before the call with `tileNum` overwritten by `k`;
when `finishedTileCount ≥ tileCount` the renderer is left as it is and the tile returned is
the "no more work" tile. -/
theorem getTile_frame (r : Renderer) (hlen : (r.renderTiles.length : Int) = r.tileCount)
    (h0 : 0 ≤ r.finishedTileCount) :
    (r.finishedTileCount < r.tileCount →
      ∃ stored tile r',
        r.renderTiles[r.finishedTileCount.toNat]? = some stored ∧
        getTile r = some (tile, r') ∧
        tile = { stored with tileNum := r.finishedTileCount } ∧
        r'.finishedTileCount = r.finishedTileCount + 1 ∧
        r'.tileCount = r.tileCount ∧
        r'.renderTiles.length = r.renderTiles.length ∧
        r'.renderTiles[r.finishedTileCount.toNat]? = some { stored with isRendering := true } ∧
        (∀ t, r'.renderTiles[r.finishedTileCount.toNat]? = some t →
          t.tileNum = stored.tileNum ∧ t.isRendering = true) ∧
        (∀ j : Nat, j ≠ r.finishedTileCount.toNat → r'.renderTiles[j]? = r.renderTiles[j]?) ∧
        r' = { r with renderTiles := r.renderTiles.set r.finishedTileCount.toNat
                        { stored with isRendering := true }
                      finishedTileCount := r.finishedTileCount + 1 }) ∧
    (r.tileCount ≤ r.finishedTileCount → getTile r = some (noTile, r)) := by
  refine ⟨fun hlt => ?_, getTile_done r⟩
  obtain ⟨stored, hst, hg⟩ := getTile_some r hlen h0 hlt
  have hi : r.finishedTileCount.toNat < r.renderTiles.length := by omega
  refine ⟨stored, _, _, hst, hg, rfl, rfl, rfl, by simp, ?_, ?_, ?_, rfl⟩
  · simp only [List.getElem?_set_self hi]
  · intro t ht
    simp only [List.getElem?_set_self hi, Option.some.injEq] at ht
    subst ht
    exact ⟨rfl, rfl⟩
  · intro j hj
    simp only [List.getElem?_set_ne (Ne.symm hj)]

/-- C16 for a renderer with three numbered tiles, one of them handed out. -/
theorem getTile_frame_witness :
    ∃ tile r', getTile ⟨numberedTiles 3, 3, 1⟩ = some (tile, r') ∧
      r'.finishedTileCount = 1 + 1 ∧ r'.tileCount = 3 :=
  match (getTile_frame ⟨numberedTiles 3, 3, 1⟩ (by decide) (by decide)).1 (by decide) with
  | ⟨_, tile, r', _, hg, _, hc, ht, _⟩ => ⟨tile, r', hg, hc, ht⟩

/-! ### `rand_interval` -/

/-- The loop of `rand_interval` ends with a value below `limit`. -/
theorem randLoop_lt (limit : Nat) (rand : Nat → Nat) (fuel : Nat) :
    ∀ (pos r next : Nat), randLoop limit rand fuel pos = some (r, next) → r < limit := by
  induction fuel with
  | zero => intro pos r next h; simp [randLoop] at h
  | succ fuel ih =>
    intro pos r next h
    simp only [randLoop] at h
    split_ifs at h with hc
    · exact ih _ r next h
    · simp only [Option.some.injEq, Prod.mk.injEq] at h
      omega

theorem UINT_RANGE_eq : UINT_RANGE = 4294967296 := by norm_num [UINT_RANGE]

/-- The range that `rand_interval` computes, when `max - min + 1` is below `2^32`. -/
theorem rand_interval_range_eq (min max : Nat) (hmm : min ≤ max)
    (hwrap : max - min + 1 < UINT_RANGE) : usub (uadd 1 max) min = max - min + 1 := by
  simp only [usub, uadd, UINT_RANGE_eq] at *
  omega

/-- What `rand_interval` does when `max - min + 1` is below `2^32`: no division by zero, and a
value it returns is in `[min, max]`. -/
theorem rand_interval_spec (RAND_MAX : Nat) (rand : Nat → Nat) (fuel min max pos : Nat)
    (hmm : min ≤ max) (hmax : max < UINT_RANGE) (hwrap : max - min + 1 < UINT_RANGE) :
    rand_interval RAND_MAX rand fuel min max pos ≠ RandOutcome.divisionByZero ∧
    ∀ v next, rand_interval RAND_MAX rand fuel min max pos = RandOutcome.value v next →
      min ≤ v ∧ v ≤ max := by
  have hrange := rand_interval_range_eq min max hmm hwrap
  have hne : max - min + 1 ≠ 0 := by omega
  have hmod : RAND_MAX % UINT_RANGE < UINT_RANGE := by
    rw [UINT_RANGE_eq]; omega
  have hle : RAND_MAX % UINT_RANGE / (max - min + 1) * (max - min + 1) ≤
      RAND_MAX % UINT_RANGE := Nat.div_mul_le_self _ _
  have hlimit : umul (RAND_MAX % UINT_RANGE / (max - min + 1)) (max - min + 1) =
      RAND_MAX % UINT_RANGE / (max - min + 1) * (max - min + 1) := by
    rw [umul]
    exact Nat.mod_eq_of_lt (lt_of_le_of_lt hle hmod)
  simp only [rand_interval, hrange, if_neg hne, hlimit]
  generalize hB : RAND_MAX % UINT_RANGE / (max - min + 1) = buckets at *
  cases hloop : randLoop (buckets * (max - min + 1)) rand fuel pos with
  | none => simp
  | some p =>
    obtain ⟨r, next⟩ := p
    have hr := randLoop_lt _ rand fuel pos r next hloop
    have hb : buckets ≠ 0 := by
      intro h0
      rw [h0, Nat.zero_mul] at hr
      exact Nat.not_lt_zero _ hr
    have hq : r / buckets < max - min + 1 :=
      (Nat.div_lt_iff_lt_mul (Nat.pos_of_ne_zero hb)).2 (by rw [Nat.mul_comm]; exact hr)
    have hv : uadd min (r / buckets) = min + r / buckets := by
      rw [uadd]
      apply Nat.mod_eq_of_lt
      rw [UINT_RANGE_eq] at hmax ⊢
      omega
    simp only [if_neg hb, hv]
    refine ⟨by simp, ?_⟩
    intro v next' h
    simp only [RandOutcome.value.injEq] at h
    obtain ⟨hv', -⟩ := h
    have hq' : r / buckets ≤ max - min := Nat.lt_succ_iff.mp hq
    generalize r / buckets = q at hv' hq'
    subst hv'
    exact ⟨Nat.le_add_right _ _, by omega⟩

/-- With an output of `rand()` below the limit at position `pos`, `rand_interval` returns at
once. -/
theorem rand_interval_returns (RAND_MAX : Nat) (rand : Nat → Nat) (fuel min max pos : Nat)
    (hmm : min ≤ max) (hwrap : max - min + 1 < UINT_RANGE)
    (hout : rand pos % UINT_RANGE <
      umul (RAND_MAX % UINT_RANGE / (max - min + 1)) (max - min + 1)) :
    ∃ v, rand_interval RAND_MAX rand (fuel + 1) min max pos = RandOutcome.value v (pos + 1) := by
  have hrange := rand_interval_range_eq min max hmm hwrap
  have hne : max - min + 1 ≠ 0 := by omega
  have hb : RAND_MAX % UINT_RANGE / (max - min + 1) ≠ 0 := by
    intro h0
    rw [h0, umul, Nat.zero_mul, Nat.zero_mod] at hout
    exact Nat.not_lt_zero _ hout
  simp only [rand_interval, hrange, if_neg hne, randLoop, ge_iff_le, if_neg (not_le.mpr hout),
    if_neg hb]
  exact ⟨_, rfl⟩

theorem RandOutcome.toOption_eq_some (o : RandOutcome) (v next : Nat)
    (h : o.toOption = some (v, next)) : o = RandOutcome.value v next := by
  cases o with
  | value v' next' =>
    simp only [RandOutcome.toOption, Option.some.injEq, Prod.mk.injEq] at h
    rw [h.1, h.2]
  | divisionByZero => simp [RandOutcome.toOption] at h
  | noReturn => simp [RandOutcome.toOption] at h

/-- The conversion of `tileCount - 1` to `unsigned int`. -/
theorem toUnsigned_pred (tileCount : Int) (h1 : 1 ≤ tileCount)
    (h2 : tileCount < 2147483648) :
    toUnsigned (tileCount - 1) = tileCount.toNat - 1 ∧ tileCount.toNat - 1 < UINT_RANGE ∧
      tileCount.toNat - 1 - 0 + 1 < UINT_RANGE ∧ 1 ≤ tileCount.toNat := by
  simp only [toUnsigned, UINT_RANGE_eq]
  norm_num
  omega

/-- The values that `reorderRandom` gets from `rand_interval` are indices of the array. -/
theorem randomDraws_lt (RAND_MAX : Nat) (rand : Nat → Nat) (fuel : Nat) (tileCount : Int)
    (h1 : 1 ≤ tileCount) (h2 : tileCount < 2147483648) (n : Nat) :
    ∀ (pos : Nat) (draws : List Nat),
      randomDraws RAND_MAX rand fuel tileCount n pos = some draws →
        draws.length = n ∧ ∀ v ∈ draws, (v : Int) < tileCount := by
  obtain ⟨hu, hmax, hwrap, hpos⟩ := toUnsigned_pred tileCount h1 h2
  induction n with
  | zero =>
    intro pos draws h
    simp only [randomDraws, Option.some.injEq] at h
    subst h
    exact ⟨rfl, fun v hv => absurd hv (List.not_mem_nil v)⟩
  | succ n ih =>
    intro pos draws h
    simp only [randomDraws, Option.bind_eq_some, Option.map_eq_some'] at h
    obtain ⟨⟨v, next⟩, hd, vs, hvs, rfl⟩ := h
    obtain ⟨hl, hlt⟩ := ih next vs hvs
    have ho := RandOutcome.toOption_eq_some _ v next hd
    rw [hu] at ho
    have hv := (rand_interval_spec RAND_MAX rand fuel 0 (tileCount.toNat - 1) pos
      (Nat.zero_le _) hmax hwrap).2 v next ho
    refine ⟨by rw [List.length_cons, hl], ?_⟩
    intro w hw
    rcases List.mem_cons.1 hw with rfl | hw
    · have := hv.2
      omega
    · exact hlt w hw

/-- C18: for unsigned `min ≤ max` with `max - min + 1 ≤ RAND_MAX` (and so at least 1) and
every stream of outputs of `rand()`, `rand_interval` does not divide by zero and a value it
returns lies in `[min, max]`; it returns at once when the output it reads is below its limit.
Consequently, for `1 ≤ tileCount` every value that `rand_interval(0, tileCount - 1)` returns in
`reorderRandom` is an index inside `[0, tileCount)`, and with these indices `reorderRandom`
stays inside the array. -/
theorem rand_interval_in_range (RAND_MAX : Nat) (rand : Nat → Nat) (fuel min max pos : Nat)
    (hmm : min ≤ max) (hmax : max < UINT_RANGE) (hrange : max - min + 1 ≤ RAND_MAX)
    (hRM : RAND_MAX < UINT_RANGE) :
    rand_interval RAND_MAX rand fuel min max pos ≠ RandOutcome.divisionByZero ∧
    (∀ v next, rand_interval RAND_MAX rand fuel min max pos = RandOutcome.value v next →
      min ≤ v ∧ v ≤ max) ∧
    (rand pos % UINT_RANGE < umul (RAND_MAX % UINT_RANGE / (max - min + 1)) (max - min + 1) →
      ∃ v, rand_interval RAND_MAX rand (fuel + 1) min max pos = RandOutcome.value v (pos + 1)) ∧
    (∀ (tileCount : Int) (fuel' pos' : Nat), 1 ≤ tileCount → tileCount < 2147483648 →
      rand_interval RAND_MAX rand fuel' 0 (toUnsigned (tileCount - 1)) pos' ≠
        RandOutcome.divisionByZero ∧
      ∀ v next, rand_interval RAND_MAX rand fuel' 0 (toUnsigned (tileCount - 1)) pos' =
        RandOutcome.value v next → (v : Int) < tileCount) ∧
    (∀ (tiles : List RenderTile) (tileCount : Int) (fuel' pos' : Nat) (draws : List Nat),
      (tiles.length : Int) = tileCount → 1 ≤ tileCount → tileCount < 2147483648 →
      randomDraws RAND_MAX rand fuel' tileCount tileCount.toNat pos' = some draws →
      (∀ v ∈ draws, (v : Int) < tileCount) ∧
      ∃ out, reorderRandom tiles tileCount (fun i => draws.getD i 0) = some out ∧
        out.Perm tiles) := by
  have hwrap : max - min + 1 < UINT_RANGE := lt_of_le_of_lt hrange hRM
  obtain ⟨hz, hv⟩ := rand_interval_spec RAND_MAX rand fuel min max pos hmm hmax hwrap
  refine ⟨hz, hv, rand_interval_returns RAND_MAX rand fuel min max pos hmm hwrap, ?_, ?_⟩
  · intro tileCount fuel' pos' h1 h2
    obtain ⟨hu, hmax', hwrap', hpos⟩ := toUnsigned_pred tileCount h1 h2
    rw [hu]
    obtain ⟨hz', hv'⟩ := rand_interval_spec RAND_MAX rand fuel' 0 (tileCount.toNat - 1) pos'
      (Nat.zero_le _) hmax' hwrap'
    refine ⟨hz', fun v next h => ?_⟩
    have := hv' v next h
    omega
  · intro tiles tileCount fuel' pos' draws hlen h1 h2 hd
    obtain ⟨hl, hlt⟩ := randomDraws_lt RAND_MAX rand fuel' tileCount h1 h2
      tileCount.toNat pos' draws hd
    refine ⟨hlt, ?_⟩
    have hn : tileCount = (tiles.length : Int) := hlen.symm
    subst hn
    simp only [Int.toNat_ofNat] at hl
    apply reorderRandom_perm tiles tiles.length rfl
    intro i hi
    have hi' : i < draws.length := by omega
    have hmem : draws.getD i 0 ∈ draws := by
      rw [List.getD_eq_getElem _ _ hi']
      exact List.getElem_mem hi'
    exact_mod_cast hlt _ hmem

/-- C18 for `rand_interval(0, 9)` with `RAND_MAX = 32767` on a stream that is stuck at 7. -/
theorem rand_interval_in_range_witness :
    rand_interval 32767 (fun _ => 7) 5 0 9 0 ≠ RandOutcome.divisionByZero ∧
      ∃ v, rand_interval 32767 (fun _ => 7) (5 + 1) 0 9 0 = RandOutcome.value v (0 + 1) :=
  match rand_interval_in_range 32767 (fun _ => 7) 5 0 9 0 (by decide)
      (by rw [UINT_RANGE_eq]; decide) (by decide) (by rw [UINT_RANGE_eq]; decide) with
  | ⟨h1, _, h3, _⟩ => ⟨h1, h3 (by simp only [UINT_RANGE_eq, umul]; decide)⟩

/-! ### Keyboard input -/

/-- The loop for the key `p` toggles `paused` on the first `threadCount` threads and touches
nothing else. -/
theorem togglePaused_spec (threadCount : Int) (ts : List ThreadState)
    (h : threadCount ≤ (ts.length : Int)) :
    ∃ ts', togglePaused threadCount ts = some ts' ∧ ts'.length = ts.length ∧
      ∀ j : Nat, ts'[j]? =
        (ts[j]?).map (fun t => if (j : Int) < threadCount then { t with paused := !t.paused }
          else t) := by
  obtain ⟨s, hs, hl, hg⟩ := forLoopM_inv
    (fun i (s : List ThreadState) =>
      match s[i]? with
      | none => none
      | some t => some (s.set i { t with paused := !t.paused }))
    (fun i s => s.length = ts.length ∧
      ∀ j : Nat, s[j]? =
        (ts[j]?).map (fun t => if j < i then { t with paused := !t.paused } else t))
    threadCount.toNat ts
    ⟨rfl, fun j => by cases ts[j]? <;> simp⟩
    (by
      rintro i s hi ⟨hl, hg⟩
      have hi' : i < ts.length := by omega
      have hsi : s[i]? = some ts[i] := by
        rw [hg i, List.getElem?_eq_getElem hi']; simp
      refine ⟨s.set i { ts[i] with paused := !ts[i].paused }, by simp only [hsi], by simpa using hl,
        fun j => ?_⟩
      by_cases hji : j = i
      · subst hji
        rw [List.getElem?_set_self (by omega), List.getElem?_eq_getElem hi']
        simp
      · rw [List.getElem?_set_ne (Ne.symm hji), hg j]
        have : (j < i + 1) = (j < i) := by
          apply propext; constructor <;> intro h' <;> omega
        simp only [this])
  refine ⟨s, hs, hl, fun j => ?_⟩
  rw [hg j]
  have : (j < threadCount.toNat) = ((j : Int) < threadCount) := by
    apply propext; constructor <;> intro h' <;> omega
  simp only [this]

/-- One polled event leaves everything but the flags of the user as it is. -/
theorem handleEvent_frame (r : UiRenderer) (event : SDLEvent)
    (h : r.prefs.threadCount ≤ (r.state.threadStates.length : Int)) :
    ∃ r', handleEvent r event = some r' ∧ r'.sdl = r.sdl ∧ r'.prefs = r.prefs ∧
      r'.state.frame = r.state.frame ∧
      r'.state.threadStates.length = r.state.threadStates.length := by
  obtain ⟨ts', hts, hl, hg⟩ := togglePaused_spec r.prefs.threadCount r.state.threadStates h
  have hmap : ts'.map (fun t => (t.currentTile, t.completedSamples)) =
      r.state.threadStates.map (fun t => (t.currentTile, t.completedSamples)) := by
    apply List.ext_getElem?
    intro j
    rw [List.getElem?_map, List.getElem?_map, hg j]
    cases r.state.threadStates[j]? with
    | none => rfl
    | some t => simp only [Option.map_some']; split_ifs <;> rfl
  simp only [handleEvent]
  by_cases hk : event.type = EventType.SDL_KEYDOWN ∧ event.keyRepeat = 0
  · have hq : ¬ event.type = EventType.SDL_QUIT := by rw [hk.1]; decide
    simp only [if_pos hk, if_neg hq]
    by_cases hp : event.sym = Keycode.SDLK_p
    · have hs : ¬ event.sym = Keycode.SDLK_s := by rw [hp]; decide
      have hx : ¬ event.sym = Keycode.SDLK_x := by rw [hp]; decide
      simp only [if_pos hp, if_neg hs, if_neg hx, hts, Option.map_some']
      exact ⟨_, rfl, rfl, rfl, by simp only [RenderState.frame, hmap], hl⟩
    · simp only [if_neg hp, Option.map_some']
      refine ⟨_, rfl, ?_, ?_, ?_, ?_⟩ <;> split_ifs <;> rfl
  · simp only [if_neg hk, Option.map_some']
    refine ⟨_, rfl, ?_, ?_, ?_, ?_⟩ <;> split_ifs <;> rfl

theorem foldlM_handleEvent_frame (events : List SDLEvent) :
    ∀ r : UiRenderer, r.prefs.threadCount ≤ (r.state.threadStates.length : Int) →
      ∃ r', events.foldlM handleEvent r = some r' ∧ r'.sdl = r.sdl ∧ r'.prefs = r.prefs ∧
        r'.state.frame = r.state.frame ∧
        r'.state.threadStates.length = r.state.threadStates.length := by
  induction events with
  | nil => intro r _; exact ⟨r, rfl, rfl, rfl, rfl, rfl⟩
  | cons e es ih =>
    intro r h
    obtain ⟨r1, h1, hs1, hp1, hf1, hl1⟩ := handleEvent_frame r e h
    obtain ⟨r2, h2, hs2, hp2, hf2, hl2⟩ := ih r1 (by rw [hp1, hl1]; exact h)
    refine ⟨r2, ?_, hs2.trans hs1, hp2.trans hp1, hf2.trans hf1, hl2.trans hl1⟩
    simp only [List.foldlM_cons, h1, Option.bind_eq_bind, Option.some_bind, h2]

/-- C14: for every renderer whose `threadStates` holds at least `threadCount` entries and every
sequence of polled events, `getKeyboardInput` returns and changes nothing of the renderer but
`renderAborted`, `saveImage` and the `paused` flags: the window, the preferences, the tile
array, the tile count, the hand-out counter, the pixels of the image and of the overlay and
the tile and sample count of every thread stay as they are. A key press (not a repeat) of `s`
sets abort and save, of `x` sets abort and clears save, of `p` toggles `paused` on the threads
below `threadCount` and leaves abort and save; a quit event sets abort and clears save; without
a window nothing changes. -/
theorem getKeyboardInput_frame (r : UiRenderer) (events : List SDLEvent)
    (hthreads : r.prefs.threadCount ≤ (r.state.threadStates.length : Int)) :
    (∃ r', getKeyboardInput r events = some r' ∧ r'.sdl = r.sdl ∧ r'.prefs = r.prefs ∧
      r'.state.frame = r.state.frame ∧
      r'.state.renderTiles = r.state.renderTiles ∧
      r'.state.tileCount = r.state.tileCount ∧
      r'.state.finishedTileCount = r.state.finishedTileCount ∧
      r'.state.image = r.state.image ∧ r'.state.uiBuffer = r.state.uiBuffer ∧
      r'.state.threadStates.length = r.state.threadStates.length) ∧
    (r.sdl = false → getKeyboardInput r events = some r) ∧
    (r.sdl = true → ∀ sym : Keycode,
      ∃ r', getKeyboardInput r [⟨EventType.SDL_KEYDOWN, 0, sym⟩] = some r' ∧
        (sym = Keycode.SDLK_s → r'.state.renderAborted = true ∧ r'.state.saveImage = true ∧
          r'.state.threadStates = r.state.threadStates) ∧
        (sym = Keycode.SDLK_x → r'.state.renderAborted = true ∧ r'.state.saveImage = false ∧
          r'.state.threadStates = r.state.threadStates) ∧
        (sym = Keycode.SDLK_p → r'.state.renderAborted = r.state.renderAborted ∧
          r'.state.saveImage = r.state.saveImage ∧
          ∀ j : Nat, r'.state.threadStates[j]? = (r.state.threadStates[j]?).map (fun t =>
            if (j : Int) < r.prefs.threadCount then { t with paused := !t.paused } else t)) ∧
        (sym = Keycode.other → r' = r)) ∧
    (r.sdl = true → ∀ (keyRepeat : Nat) (sym : Keycode),
      ∃ r', getKeyboardInput r [⟨EventType.SDL_QUIT, keyRepeat, sym⟩] = some r' ∧
        r'.state.renderAborted = true ∧ r'.state.saveImage = false ∧
        r'.state.threadStates = r.state.threadStates) ∧
    (r.sdl = true → ∀ (keyRepeat : Nat) (sym : Keycode),
      getKeyboardInput r [⟨EventType.other, keyRepeat, sym⟩] = some r ∧
      getKeyboardInput r [⟨EventType.SDL_KEYDOWN, keyRepeat + 1, sym⟩] = some r) := by
  refine ⟨?_, ?_, ?_, ?_, ?_⟩
  · by_cases hs : r.sdl = true
    · obtain ⟨r', h, h1, h2, h3, h4⟩ := foldlM_handleEvent_frame events r hthreads
      have hf := h3
      simp only [RenderState.frame, Prod.mk.injEq] at hf
      refine ⟨r', ?_, h1, h2, h3, hf.2.1, hf.2.2.1, hf.2.2.2.1, hf.2.2.2.2.1, hf.2.2.2.2.2, h4⟩
      simp only [getKeyboardInput, hs, Bool.not_true, Bool.false_eq_true, if_false, h]
    · refine ⟨r, ?_, rfl, rfl, rfl, rfl, rfl, rfl, rfl, rfl, rfl⟩
      simp only [getKeyboardInput, Bool.not_eq_true] at hs ⊢
      simp [hs]
  · intro hs
    simp [getKeyboardInput, hs]
  · intro hs sym
    obtain ⟨ts', hts, hl, hg⟩ :=
      togglePaused_spec r.prefs.threadCount r.state.threadStates hthreads
    cases sym with
    | SDLK_s =>
      refine ⟨_, by simp [getKeyboardInput, hs, handleEvent]; rfl, ?_, ?_, ?_, ?_⟩ <;> simp
    | SDLK_x =>
      refine ⟨_, by simp [getKeyboardInput, hs, handleEvent]; rfl, ?_, ?_, ?_, ?_⟩ <;> simp
    | SDLK_p =>
      refine ⟨{ r with state := { r.state with threadStates := ts' } },
        by simp [getKeyboardInput, hs, handleEvent, hts], ?_, ?_, ?_, ?_⟩
      · simp
      · simp
      · intro _
        exact ⟨rfl, rfl, hg⟩
      · simp
    | other =>
      refine ⟨r, by simp [getKeyboardInput, hs, handleEvent], ?_, ?_, ?_, ?_⟩ <;> simp
  · intro hs keyRepeat sym
    refine ⟨{ r with state := { r.state with renderAborted := true, saveImage := false } },
      by simp [getKeyboardInput, hs, handleEvent], rfl, rfl, rfl⟩
  · intro hs keyRepeat sym
    constructor <;> simp [getKeyboardInput, hs, handleEvent]

/-- C14 for the sample renderer and the keys `p` and `s`. -/
theorem getKeyboardInput_frame_witness :
    ∃ r', getKeyboardInput sampleUi
        [⟨EventType.SDL_KEYDOWN, 0, Keycode.SDLK_p⟩, ⟨EventType.SDL_KEYDOWN, 0, Keycode.SDLK_s⟩]
        = some r' ∧
      r'.state.renderTiles = sampleUi.state.renderTiles ∧
      r'.state.finishedTileCount = sampleUi.state.finishedTileCount :=
  match (getKeyboardInput_frame sampleUi
      [⟨EventType.SDL_KEYDOWN, 0, Keycode.SDLK_p⟩, ⟨EventType.SDL_KEYDOWN, 0, Keycode.SDLK_s⟩]
      (by decide)).1 with
  | ⟨r', h, _, _, _, ht, _, hc, _⟩ => ⟨r', h, ht, hc⟩

/-- On the sample renderer the keys `p` and `s` pause the first thread, wake the second and
set both flags. -/
theorem getKeyboardInput_sample :
    (getKeyboardInput sampleUi
        [⟨EventType.SDL_KEYDOWN, 0, Keycode.SDLK_p⟩,
          ⟨EventType.SDL_KEYDOWN, 0, Keycode.SDLK_s⟩]).map
        (fun r => (r.state.renderAborted, r.state.saveImage,
          r.state.threadStates.map (fun t => t.paused))) =
      some (true, true, [true, false]) := by
  decide

/-! ### Materials -/

section Material

variable {F R : Type}

/-- C9: `assignBSDF` binds the scatter behaviour as a function of the material type alone:
`lambertian` gives `lambertianBSDF`, `metal` gives `metallicBSDF`, `emission` gives
`emissiveBSDF`, `glass` gives `dialectricBSDF` and every other value of the type gives
`lambertianBSDF`; no field other than `bsdf` changes, and a second call changes nothing. -/
theorem assignBSDF_dispatch (mat : Material F) :
    (mat.type = MaterialType.lambertian → (assignBSDF mat).bsdf = some Bsdf.lambertianBSDF) ∧
    (mat.type = MaterialType.metal → (assignBSDF mat).bsdf = some Bsdf.metallicBSDF) ∧
    (mat.type = MaterialType.emission → (assignBSDF mat).bsdf = some Bsdf.emissiveBSDF) ∧
    (mat.type = MaterialType.glass → (assignBSDF mat).bsdf = some Bsdf.dialectricBSDF) ∧
    (∀ value : Int, mat.type = MaterialType.other value →
      (assignBSDF mat).bsdf = some Bsdf.lambertianBSDF) ∧
    (∀ mat' : Material F, mat'.type = mat.type → (assignBSDF mat').bsdf = (assignBSDF mat).bsdf) ∧
    assignBSDF mat = { mat with bsdf := (assignBSDF mat).bsdf } ∧
    assignBSDF (assignBSDF mat) = assignBSDF mat := by
  refine ⟨?_, ?_, ?_, ?_, ?_, ?_, ?_, ?_⟩
  · intro h; simp [assignBSDF, h]
  · intro h; simp [assignBSDF, h]
  · intro h; simp [assignBSDF, h]
  · intro h; simp [assignBSDF, h]
  · intro v h; simp [assignBSDF, h]
  · intro mat' h
    unfold assignBSDF
    rw [h]
    cases mat.type <;> rfl
  · unfold assignBSDF
    cases mat.type <;> rfl
  · unfold assignBSDF
    cases h : mat.type <;> simp [h]

variable [LinearOrderedField F]

/-- C10: for an intersection whose material has `roughness = 0` and whose incident direction
`d` is not zero, `metallicBSDF` returns without a draw from the generator (for every `fuel`,
also 0, and with the generator state it was given), the scattered ray starts at the hit point,
is of kind reflected, and its direction is `r = u - 2(u.n)n` for `u = d/|d|` and the surface
normal `n`; the value returned is true exactly when `r.n > 0`. -/
theorem metallicBSDF_mirror (env : Env F R) (fuel : Nat) (isect : HitRecord F) (rng : R)
    (hrough : isect.end_.roughness = 0)
    (_hd : isect.incident.direction ≠ ⟨0, 0, 0⟩) :
    ∃ res : BsdfResult F R,
      metallicBSDF env fuel isect rng = some res ∧
      metallicBSDF env 0 isect rng = some res ∧
      res.rng = rng ∧
      res.scattered.start = isect.hitPoint ∧
      res.scattered.rayType = RayType.rayTypeReflected ∧
      res.scattered.direction.x =
        isect.incident.direction.x / vecLength env.sqrt isect.incident.direction -
          2 * vecDot (vecNormalize env.sqrt isect.incident.direction) isect.surfaceNormal *
            isect.surfaceNormal.x ∧
      res.scattered.direction.y =
        isect.incident.direction.y / vecLength env.sqrt isect.incident.direction -
          2 * vecDot (vecNormalize env.sqrt isect.incident.direction) isect.surfaceNormal *
            isect.surfaceNormal.y ∧
      res.scattered.direction.z =
        isect.incident.direction.z / vecLength env.sqrt isect.incident.direction -
          2 * vecDot (vecNormalize env.sqrt isect.incident.direction) isect.surfaceNormal *
            isect.surfaceNormal.z ∧
      (res.continues = true ↔
        res.scattered.direction.x * isect.surfaceNormal.x +
          res.scattered.direction.y * isect.surfaceNormal.y +
          res.scattered.direction.z * isect.surfaceNormal.z > 0) := by
  have hr : ¬ isect.end_.roughness > 0 := by rw [hrough]; exact lt_irrefl 0
  refine ⟨⟨decide (vecDot (reflectVec
        (vecNormalize env.sqrt isect.incident.direction) isect.surfaceNormal)
        isect.surfaceNormal > 0),
      diffuseColor env isect,
      newRay isect.hitPoint (reflectVec
        (vecNormalize env.sqrt isect.incident.direction) isect.surfaceNormal)
        RayType.rayTypeReflected,
      rng⟩, ?_, ?_, ?_⟩
  · simp only [metallicBSDF, if_neg hr, Option.map_some', newRay]
  · simp only [metallicBSDF, if_neg hr, Option.map_some', newRay]
  · refine ⟨rfl, rfl, rfl, ?_, ?_, ?_, ?_⟩
    · simp only [newRay, reflectVec, vecSub, vecScale, vecNormalize]; ring
    · simp only [newRay, reflectVec, vecSub, vecScale, vecNormalize]; ring
    · simp only [newRay, reflectVec, vecSub, vecScale, vecNormalize]; ring
    · simp only [decide_eq_true_eq, vecDot, newRay]

/-- C10 at a ray going straight down onto a smooth metal plane. -/
theorem metallicBSDF_mirror_witness :
    sampleHit.end_.roughness = 0 ∧
      ∃ res : BsdfResult ℚ Nat, metallicBSDF sampleEnv 0 sampleHit 7 = some res ∧
        res.rng = 7 ∧ res.scattered.start = sampleHit.hitPoint :=
  ⟨rfl,
    match metallicBSDF_mirror sampleEnv 0 sampleHit 7 rfl (by decide) with
    | ⟨res, h, _, hr, hs, _⟩ => ⟨res, h, hr, hs⟩⟩

/-- The ray of the sample hit is sent straight back up, and the path continues. -/
theorem metallicBSDF_sample :
    (metallicBSDF sampleEnv 0 sampleHit 7).map
        (fun res => (res.continues, res.scattered.direction, res.rng)) =
      some (true, ⟨0, 0, 1⟩, 7) := by
  norm_num [metallicBSDF, sampleHit, sampleMetal, sampleEnv, newRay, reflectVec, vecNormalize,
    vecLength, vecLengthSquared, vecDot, vecSub, vecScale]

/-- More fuel does not change what `randomInUnitSphere` returns. -/
theorem randomInUnitSphere_mono (env : Env F R) (fuel : Nat) :
    ∀ (rng : R) (p : Vector F × R), randomInUnitSphere env fuel rng = some p →
      ∀ k, randomInUnitSphere env (fuel + k) rng = some p := by
  induction fuel with
  | zero => intro rng p h; simp [randomInUnitSphere] at h
  | succ fuel ih =>
    intro rng p h k
    rw [Nat.add_right_comm]
    simp only [randomInUnitSphere] at h ⊢
    split_ifs at h ⊢ with hc
    · exact ih _ p h k
    · exact h

/-- The point that `randomInUnitSphere` returns lies inside the unit sphere. -/
theorem randomInUnitSphere_inside (env : Env F R) (fuel : Nat) :
    ∀ (rng : R) (p : Vector F × R), randomInUnitSphere env fuel rng = some p →
      vecLengthSquared p.1 < 1 := by
  induction fuel with
  | zero => intro rng p h; simp [randomInUnitSphere] at h
  | succ fuel ih =>
    intro rng p h
    simp only [randomInUnitSphere] at h
    split_ifs at h with hc
    · exact ih _ p h
    · cases h
      exact lt_of_not_ge hc

/-- The loop of `randomInUnitSphere` ends: when the point tried in round `n` (counted from 0)
lies inside the unit sphere, `n + 1` rounds are enough. -/
theorem randomInUnitSphere_returns (env : Env F R) (n : Nat) :
    ∀ rng : R, vecLengthSquared (samplePoint env (afterRounds env n rng)).1 < 1 →
      ∃ p : Vector F × R, randomInUnitSphere env (n + 1) rng = some p := by
  induction n with
  | zero =>
    intro rng h
    refine ⟨samplePoint env rng, ?_⟩
    simp only [afterRounds] at h
    simp only [randomInUnitSphere]
    rw [if_neg (not_le.mpr h)]
  | succ n ih =>
    intro rng h
    simp only [afterRounds] at h
    rw [randomInUnitSphere]
    split_ifs with hc
    · exact ih _ h
    · exact ⟨_, rfl⟩

/-- The order of evaluation decides which coordinate a draw lands in: on the draws `3/4`,
`1/2`, `1/4` the point tried is `(1/2, 0, -1/2)` from left to right and `(-1/2, 0, 1/2)` from
right to left. -/
theorem samplePoint_order :
    samplePoint (cycleEnv ArgOrder.xyz) 0 = (⟨1 / 2, 0, -1 / 2⟩, 3) ∧
    samplePoint (cycleEnv ArgOrder.zyx) 0 = (⟨-1 / 2, 0, 1 / 2⟩, 3) := by
  constructor <;>
    norm_num [samplePoint, cycleEnv, sampleEnv, ArgOrder.place, vecSub, vecScale, vecWithPos]

/-- C11: for every intersection and every random stream on which some round of the rejection
loop of `randomInUnitSphere` draws a point inside the unit sphere, in whatever order the
three draws of a round are evaluated, `lambertianBSDF` returns, it returns true, the
scattered ray starts at the hit point, its direction is the surface normal plus the sampled
point `v`, which lies inside the unit sphere (`hit + normal + v - hit`), and the attenuation
is the diffuse color of the material when the material has no texture. -/
theorem lambertianBSDF_scatter (env : Env F R) (isect : HitRecord F) (rng : R) (n : Nat)
    (hstream : vecLengthSquared (samplePoint env (afterRounds env n rng)).1 < 1) :
    ∃ (v : Vector F) (rng' : R) (res : BsdfResult F R),
      randomInUnitSphere env (n + 1) rng = some (v, rng') ∧
      vecLengthSquared v < 1 ∧
      (∀ k, lambertianBSDF env (n + 1 + k) isect rng = some res) ∧
      res.continues = true ∧
      res.scattered.start = isect.hitPoint ∧
      res.scattered.rayType = RayType.rayTypeScattered ∧
      res.scattered.direction =
        ⟨isect.surfaceNormal.x + v.x, isect.surfaceNormal.y + v.y, isect.surfaceNormal.z + v.z⟩ ∧
      res.scattered.direction =
        vecSub (vecAdd (vecAdd isect.hitPoint isect.surfaceNormal) v) isect.hitPoint ∧
      res.rng = rng' ∧
      (isect.end_.hasTexture = false → res.attenuation = isect.end_.diffuse) := by
  obtain ⟨⟨v, rng'⟩, hsample⟩ := randomInUnitSphere_returns env n rng hstream
  refine ⟨v, rng', ⟨true, diffuseColor env isect,
    ⟨isect.hitPoint, vecSub (vecAdd (vecAdd isect.hitPoint isect.surfaceNormal) v) isect.hitPoint,
      RayType.rayTypeScattered, some isect.end_, 0⟩, rng'⟩, hsample,
    randomInUnitSphere_inside env (n + 1) rng _ hsample, ?_, rfl, rfl, rfl, ?_, rfl, rfl, ?_⟩
  · intro k
    simp only [lambertianBSDF, randomInUnitSphere_mono env (n + 1) rng _ hsample k,
      Option.map_some']
  · simp only [vecSub, vecAdd, Vector.mk.injEq]
    refine ⟨by ring, by ring, by ring⟩
  · intro h
    simp only [diffuseColor, h]
    rfl

/-- C11 on the stream that draws `3/4`, `1/2`, `1/4` in turn, with the arguments evaluated
from right to left: the first point tried, `(-1/2, 0, 1/2)`, lies inside the unit sphere. -/
theorem lambertianBSDF_scatter_witness :
    vecLengthSquared (samplePoint (cycleEnv ArgOrder.zyx)
        (afterRounds (cycleEnv ArgOrder.zyx) 0 0)).1 < 1 ∧
      ∃ res : BsdfResult ℚ Nat, lambertianBSDF (cycleEnv ArgOrder.zyx) 1 sampleHit 0 = some res ∧
        res.continues = true ∧ res.scattered.start = sampleHit.hitPoint :=
  have h : vecLengthSquared (samplePoint (cycleEnv ArgOrder.zyx)
      (afterRounds (cycleEnv ArgOrder.zyx) 0 0)).1 < 1 := by
    norm_num [afterRounds, samplePoint, cycleEnv, sampleEnv, ArgOrder.place, vecLengthSquared,
      vecSub, vecScale, vecWithPos]
  ⟨h,
    match lambertianBSDF_scatter (cycleEnv ArgOrder.zyx) sampleHit 0 0 h with
    | ⟨_, _, res, _, _, hr, hc, hs, _⟩ => ⟨res, hr 0, hc, hs⟩⟩

/-- At `IOR = 1` the value `r0` of `shlick` is 0 and so is the reflectance at `cosine = 1`. -/
theorem shlick_one_one :
    shlick (1 : F) 1 = 0 ∧ ((1 : F) - 1) / (1 + 1) * ((1 - 1) / (1 + 1)) = 0 := by
  constructor
  · simp [shlick]
  · simp

/-- The locals of `dialectricBSDF` for a ray that leaves the material. -/
theorem dialectricLocals_exiting (env : Env F R) (garbage : Vector F) (isect : HitRecord F)
    (h : vecDot isect.incident.direction isect.surfaceNormal > 0) :
    dialectricLocals env garbage isect =
      match refract env.sqrt isect.incident.direction (vecNegate isect.surfaceNormal)
          isect.end_.IOR with
      | some refracted =>
        { outwardNormal := vecNegate isect.surfaceNormal, niOverNt := isect.end_.IOR
          cosine := isect.end_.IOR * vecDot isect.incident.direction isect.surfaceNormal /
            vecLength env.sqrt isect.incident.direction
          reflected := reflectVec isect.incident.direction isect.surfaceNormal
          refracted := refracted, refractOk := true
          reflectionProbability := shlick (isect.end_.IOR *
            vecDot isect.incident.direction isect.surfaceNormal /
              vecLength env.sqrt isect.incident.direction) isect.end_.IOR }
      | none =>
        { outwardNormal := vecNegate isect.surfaceNormal, niOverNt := isect.end_.IOR
          cosine := isect.end_.IOR * vecDot isect.incident.direction isect.surfaceNormal /
            vecLength env.sqrt isect.incident.direction
          reflected := reflectVec isect.incident.direction isect.surfaceNormal
          refracted := garbage, refractOk := false
          reflectionProbability := 1 } := by
  simp only [dialectricLocals, if_pos h]

/-- The locals of `dialectricBSDF` for a ray that enters the material. -/
theorem dialectricLocals_entering (env : Env F R) (garbage : Vector F) (isect : HitRecord F)
    (h : ¬ vecDot isect.incident.direction isect.surfaceNormal > 0) :
    dialectricLocals env garbage isect =
      match refract env.sqrt isect.incident.direction isect.surfaceNormal
          (1 / isect.end_.IOR) with
      | some refracted =>
        { outwardNormal := isect.surfaceNormal, niOverNt := 1 / isect.end_.IOR
          cosine := -(vecDot isect.incident.direction isect.surfaceNormal /
            vecLength env.sqrt isect.incident.direction)
          reflected := reflectVec isect.incident.direction isect.surfaceNormal
          refracted := refracted, refractOk := true
          reflectionProbability := shlick (-(vecDot isect.incident.direction isect.surfaceNormal /
            vecLength env.sqrt isect.incident.direction)) isect.end_.IOR }
      | none =>
        { outwardNormal := isect.surfaceNormal, niOverNt := 1 / isect.end_.IOR
          cosine := -(vecDot isect.incident.direction isect.surfaceNormal /
            vecLength env.sqrt isect.incident.direction)
          reflected := reflectVec isect.incident.direction isect.surfaceNormal
          refracted := garbage, refractOk := false
          reflectionProbability := 1 } := by
  simp only [dialectricLocals, if_neg h]

/-- With a ratio of 1 a unit direction along the inward normal is refracted unchanged. -/
theorem refract_straight (sqrt : F → F) (d m : Vector F) (k : F) (hsqrt : sqrt 1 = 1)
    (hd : vecLengthSquared d = 1) (hdot : vecDot d m = -1) (hk : k = 1) :
    refract sqrt d m k = some d := by
  have hnorm : vecNormalize sqrt d = d := by
    simp only [vecNormalize, vecLength, hd, hsqrt, div_one]
  have hdisc : (1 : F) - 1 * 1 * (1 - -1 * -1) = 1 := by norm_num
  subst hk
  simp only [refract, hnorm, hdot, hdisc, zero_lt_one, if_true, hsqrt]
  obtain ⟨dx, dy, dz⟩ := d
  simp only [vecSub, vecScale, Option.some.injEq, Vector.mk.injEq]
  refine ⟨by ring, by ring, by ring⟩

/-- The locals of `dialectricBSDF` at `IOR = 1` and normal incidence. -/
theorem dialectricLocals_normal_incidence (env : Env F R) (garbage : Vector F)
    (isect : HitRecord F) (hior : isect.end_.IOR = 1)
    (hn : vecLengthSquared isect.surfaceNormal = 1)
    (hd : isect.incident.direction = vecNegate isect.surfaceNormal ∨
      isect.incident.direction = isect.surfaceNormal)
    (hsqrt : env.sqrt 1 = 1) :
    (dialectricLocals env garbage isect).cosine = 1 ∧
    (dialectricLocals env garbage isect).refractOk = true ∧
    (dialectricLocals env garbage isect).refracted = isect.incident.direction ∧
    (dialectricLocals env garbage isect).reflectionProbability = 0 := by
  have hnn : vecDot isect.surfaceNormal isect.surfaceNormal = 1 := hn
  have hnegn : vecLengthSquared (vecNegate isect.surfaceNormal) = 1 := by
    rw [← hn]; simp only [vecLengthSquared, vecNegate]; ring
  rcases hd with hd | hd
  · have hdot : vecDot isect.incident.direction isect.surfaceNormal = -1 := by
      rw [hd, ← hnn]; simp only [vecDot, vecNegate]; ring
    have hlen : vecLength env.sqrt isect.incident.direction = 1 := by
      rw [hd, vecLength, hnegn, hsqrt]
    have hneg : ¬ vecDot isect.incident.direction isect.surfaceNormal > 0 := by
      rw [hdot]; norm_num
    have href := refract_straight env.sqrt isect.incident.direction isect.surfaceNormal
      (1 / isect.end_.IOR) hsqrt (by rw [hd]; exact hnegn) hdot (by rw [hior]; norm_num)
    rw [dialectricLocals_entering env garbage isect hneg, href]
    simp only [hdot, hlen, hior]
    refine ⟨by norm_num, trivial, trivial, by norm_num [shlick]⟩
  · have hdot : vecDot isect.incident.direction isect.surfaceNormal = 1 := by
      rw [hd, hnn]
    have hdot' : vecDot isect.incident.direction (vecNegate isect.surfaceNormal) = -1 := by
      rw [hd, ← hnn]; simp only [vecDot, vecNegate]; ring
    have hlen : vecLength env.sqrt isect.incident.direction = 1 := by
      rw [hd, vecLength, hn, hsqrt]
    have hpos : vecDot isect.incident.direction isect.surfaceNormal > 0 := by
      rw [hdot]; norm_num
    have href := refract_straight env.sqrt isect.incident.direction
      (vecNegate isect.surfaceNormal) isect.end_.IOR hsqrt (by rw [hd]; exact hn) hdot' hior
    rw [dialectricLocals_exiting env garbage isect hpos, href]
    simp only [hdot, hlen, hior]
    refine ⟨by norm_num, trivial, trivial, by norm_num [shlick]⟩

/-- C12: for glass with `IOR = 1` and `roughness = 0`, a unit surface normal `n` and the unit
incident direction `d = -n` (entering) or `d = n` (exiting), the cosine is 1, `shlick` has
`r0 = 0` and gives the reflectance 0, so for every draw in `[0, 1)` `dialectricBSDF` takes the
refraction branch: the scattered ray is of kind refracted, starts at the hit point and has the
direction `d`. The square root is exact at 1. -/
theorem dialectricBSDF_normal_incidence (env : Env F R) (fuel : Nat) (garbage : Vector F)
    (isect : HitRecord F) (rng : R)
    (hior : isect.end_.IOR = 1) (hrough : isect.end_.roughness = 0)
    (hn : vecLengthSquared isect.surfaceNormal = 1)
    (hd : isect.incident.direction = vecNegate isect.surfaceNormal ∨
      isect.incident.direction = isect.surfaceNormal)
    (hsqrt : env.sqrt 1 = 1)
    (hdraw : 0 ≤ (env.rndFloat rng).1 ∧ (env.rndFloat rng).1 < 1) :
    vecLengthSquared isect.incident.direction = 1 ∧
    (1 - isect.end_.IOR) / (1 + isect.end_.IOR) * ((1 - isect.end_.IOR) / (1 + isect.end_.IOR))
      = 0 ∧
    (dialectricLocals env garbage isect).cosine = 1 ∧
    shlick (dialectricLocals env garbage isect).cosine isect.end_.IOR = 0 ∧
    (dialectricLocals env garbage isect).reflectionProbability = 0 ∧
    ∃ res : BsdfResult F R,
      dialectricBSDF env fuel garbage isect rng = some res ∧
      res.continues = true ∧
      res.scattered.rayType = RayType.rayTypeRefracted ∧
      res.scattered.start = isect.hitPoint ∧
      res.scattered.direction = isect.incident.direction := by
  obtain ⟨hc, -, href, hp⟩ := dialectricLocals_normal_incidence env garbage isect hior hn hd hsqrt
  have hr : ¬ isect.end_.roughness > 0 := by rw [hrough]; exact lt_irrefl 0
  have hlen : vecLengthSquared isect.incident.direction = 1 := by
    rcases hd with hd | hd
    · rw [hd, ← hn]; simp only [vecLengthSquared, vecNegate]; ring
    · rw [hd, hn]
  refine ⟨hlen, by rw [hior]; norm_num, hc, by rw [hc, hior]; norm_num [shlick], hp, ?_⟩
  refine ⟨⟨true, diffuseColor env isect,
    newRay isect.hitPoint isect.incident.direction RayType.rayTypeRefracted,
    (env.rndFloat rng).2⟩, ?_, rfl, rfl, rfl, rfl⟩
  simp only [dialectricBSDF, if_neg hr, Option.map_some', hp, href,
    if_neg (not_lt.mpr hdraw.1)]

/-- C12 for a ray going straight down into the glass plane `z = 0`. -/
theorem dialectricBSDF_normal_incidence_witness :
    ∃ res : BsdfResult ℚ Nat,
      dialectricBSDF sampleEnv 0 ⟨9, 9, 9⟩ (glassHit 1 0 ⟨0, 0, -1⟩) 0 = some res ∧
      res.scattered.rayType = RayType.rayTypeRefracted ∧
      res.scattered.direction = ⟨0, 0, -1⟩ :=
  match (dialectricBSDF_normal_incidence sampleEnv 0 ⟨9, 9, 9⟩ (glassHit 1 0 ⟨0, 0, -1⟩) 0
      rfl rfl (by norm_num [glassHit, sampleHit, vecLengthSquared])
      (Or.inl (by norm_num [glassHit, sampleHit, vecNegate, newRay])) rfl
      (by norm_num [sampleEnv])).2.2.2.2.2 with
  | ⟨res, h, _, hk, _, hdir⟩ => ⟨res, h, hk, hdir⟩

/-- The outward normal and the ratio of the indices that `dialectricBSDF` passes to `refract`
do not depend on what the uninitialised local holds. -/
theorem dialectricLocals_fields (env : Env F R) (garbage : Vector F) (isect : HitRecord F) :
    (dialectricLocals env garbage isect).outwardNormal =
      (if vecDot isect.incident.direction isect.surfaceNormal > 0
        then vecNegate isect.surfaceNormal else isect.surfaceNormal) ∧
    (dialectricLocals env garbage isect).niOverNt =
      (if vecDot isect.incident.direction isect.surfaceNormal > 0
        then isect.end_.IOR else 1 / isect.end_.IOR) ∧
    (dialectricLocals env garbage isect).reflected =
      reflectVec isect.incident.direction isect.surfaceNormal ∧
    (refract env.sqrt isect.incident.direction
        (dialectricLocals env garbage isect).outwardNormal
        (dialectricLocals env garbage isect).niOverNt = none →
      (dialectricLocals env garbage isect).refractOk = false ∧
      (dialectricLocals env garbage isect).refracted = garbage ∧
      (dialectricLocals env garbage isect).reflectionProbability = 1) ∧
    (∀ r, refract env.sqrt isect.incident.direction
        (dialectricLocals env garbage isect).outwardNormal
        (dialectricLocals env garbage isect).niOverNt = some r →
      (dialectricLocals env garbage isect).refractOk = true ∧
      (dialectricLocals env garbage isect).refracted = r ∧
      (dialectricLocals env garbage isect).reflectionProbability =
        shlick (dialectricLocals env garbage isect).cosine isect.end_.IOR) := by
  by_cases h : vecDot isect.incident.direction isect.surfaceNormal > 0
  · rw [dialectricLocals_exiting env garbage isect h]
    simp only [if_pos h]
    cases hr : refract env.sqrt isect.incident.direction (vecNegate isect.surfaceNormal)
      isect.end_.IOR <;> simp [hr]
  · rw [dialectricLocals_entering env garbage isect h]
    simp only [if_neg h, one_div]
    cases hr : refract env.sqrt isect.incident.direction isect.surfaceNormal
      isect.end_.IOR⁻¹ <;> simp [hr]

/-- The function `refract` returns false exactly when the discriminant is not positive. -/
theorem refract_eq_none_iff (sqrt : F → F) (d m : Vector F) (k : F) :
    refract sqrt d m k = none ↔
      1 - k * k * (1 - vecDot (vecNormalize sqrt d) m * vecDot (vecNormalize sqrt d) m) ≤ 0 := by
  simp only [refract]
  split_ifs with h
  · simp only [false_iff, not_le]
    exact h
  · simp only [true_iff]
    exact not_lt.mp h

/-- What `dialectricBSDF` returns when `refract` returns false and every draw is below 1. -/
theorem dialectricBSDF_of_refract_none (env : Env F R) (fuel : Nat) (garbage : Vector F)
    (isect : HitRecord F) (rng : R)
    (hnone : refract env.sqrt isect.incident.direction
      (if vecDot isect.incident.direction isect.surfaceNormal > 0
        then vecNegate isect.surfaceNormal else isect.surfaceNormal)
      (if vecDot isect.incident.direction isect.surfaceNormal > 0
        then isect.end_.IOR else 1 / isect.end_.IOR) = none)
    (hdraw : ∀ s : R, (env.rndFloat s).1 < 1) :
    dialectricBSDF env fuel garbage isect rng =
      if isect.end_.roughness > 0 then
        (randomInUnitSphere env fuel rng).map (fun p =>
          ⟨true, diffuseColor env isect,
            newRay isect.hitPoint
              (vecAdd (reflectVec isect.incident.direction isect.surfaceNormal)
                (vecScale p.1 isect.end_.roughness)) RayType.rayTypeReflected,
            (env.rndFloat p.2).2⟩)
      else
        some ⟨true, diffuseColor env isect,
          newRay isect.hitPoint (reflectVec isect.incident.direction isect.surfaceNormal)
            RayType.rayTypeReflected,
          (env.rndFloat rng).2⟩ := by
  obtain ⟨ho, hk, hrefl, hn, -⟩ := dialectricLocals_fields env garbage isect
  rw [ho, hk] at hn
  obtain ⟨-, -, hp⟩ := hn hnone
  simp only [dialectricBSDF, hp, hrefl, hdraw, if_true]
  split_ifs with hr
  · cases randomInUnitSphere env fuel rng <;> simp
  · simp

/-- C13: for every intersection where the discriminant `1 - niOverNt^2 * (1 - dt^2)` is at
most 0, so that `refract` returns false, and every draw below 1, the reflection probability
is 1 and `dialectricBSDF` returns true and leaves the reflected ray, of kind reflected, from
the hit point: when `roughness` is not positive, with the direction
`reflectVec(incident, normal)` for every number of rounds; when `roughness > 0`, on every
stream on which some round of the rejection loop of `randomInUnitSphere` draws a point `v`
inside the unit sphere, with the direction `reflectVec(incident, normal) + roughness * v`.
What the uninitialised local `refracted` holds does not change the result. -/
theorem dialectricBSDF_total_reflection (env : Env F R) (garbage : Vector F)
    (isect : HitRecord F) (rng : R)
    (htir : 1 - (dialectricLocals env garbage isect).niOverNt *
        (dialectricLocals env garbage isect).niOverNt *
        (1 - vecDot (vecNormalize env.sqrt isect.incident.direction)
              (dialectricLocals env garbage isect).outwardNormal *
            vecDot (vecNormalize env.sqrt isect.incident.direction)
              (dialectricLocals env garbage isect).outwardNormal) ≤ 0)
    (hdraw : ∀ s : R, (env.rndFloat s).1 < 1) :
    refract env.sqrt isect.incident.direction (dialectricLocals env garbage isect).outwardNormal
      (dialectricLocals env garbage isect).niOverNt = none ∧
    (dialectricLocals env garbage isect).reflectionProbability = 1 ∧
    (¬ isect.end_.roughness > 0 →
      ∃ res : BsdfResult F R,
        (∀ fuel' garbage', dialectricBSDF env fuel' garbage' isect rng = some res) ∧
        res.continues = true ∧
        res.scattered.rayType = RayType.rayTypeReflected ∧
        res.scattered.start = isect.hitPoint ∧
        res.scattered.direction = reflectVec isect.incident.direction isect.surfaceNormal) ∧
    (isect.end_.roughness > 0 → ∀ n : Nat,
      vecLengthSquared (samplePoint env (afterRounds env n rng)).1 < 1 →
      ∃ (v : Vector F) (rng' : R) (res : BsdfResult F R),
        randomInUnitSphere env (n + 1) rng = some (v, rng') ∧
        vecLengthSquared v < 1 ∧
        (∀ k garbage', dialectricBSDF env (n + 1 + k) garbage' isect rng = some res) ∧
        res.continues = true ∧
        res.scattered.rayType = RayType.rayTypeReflected ∧
        res.scattered.start = isect.hitPoint ∧
        res.scattered.direction =
          vecAdd (reflectVec isect.incident.direction isect.surfaceNormal)
            (vecScale v isect.end_.roughness)) := by
  have hnone := (refract_eq_none_iff env.sqrt isect.incident.direction _ _).2 htir
  obtain ⟨ho, hk, -, hn, -⟩ := dialectricLocals_fields env garbage isect
  obtain ⟨-, -, hp⟩ := hn hnone
  rw [ho, hk] at hnone
  refine ⟨by rw [ho, hk]; exact hnone, hp, ?_, ?_⟩
  · intro hr
    refine ⟨⟨true, diffuseColor env isect,
      newRay isect.hitPoint (reflectVec isect.incident.direction isect.surfaceNormal)
        RayType.rayTypeReflected,
      (env.rndFloat rng).2⟩, fun fuel' garbage' => ?_, rfl, rfl, rfl, rfl⟩
    rw [dialectricBSDF_of_refract_none env fuel' garbage' isect rng hnone hdraw, if_neg hr]
  · intro hr n hstream
    obtain ⟨⟨v, rng'⟩, hs⟩ := randomInUnitSphere_returns env n rng hstream
    refine ⟨v, rng', ⟨true, diffuseColor env isect,
      newRay isect.hitPoint (vecAdd (reflectVec isect.incident.direction isect.surfaceNormal)
        (vecScale v isect.end_.roughness)) RayType.rayTypeReflected,
      (env.rndFloat rng').2⟩, hs, randomInUnitSphere_inside env (n + 1) rng _ hs,
      fun k garbage' => ?_, rfl, rfl, rfl, rfl⟩
    rw [dialectricBSDF_of_refract_none env (n + 1 + k) garbage' isect rng hnone hdraw,
      if_pos hr, randomInUnitSphere_mono env (n + 1) rng _ hs k]
    rfl

/-- C13 at a rough glass (`IOR = 2`, `roughness = 1/2`) hit from inside beyond the critical
angle, at the unit direction `(3/5, 0, 4/5)`, on the stream that draws `3/4`, `1/2`, `1/4` in
turn: the first point tried lies inside the unit sphere and the ray left is the reflected
one, whatever the local `refracted` held. -/
theorem dialectricBSDF_total_reflection_witness :
    vecLengthSquared (samplePoint (cycleEnv ArgOrder.zyx)
        (afterRounds (cycleEnv ArgOrder.zyx) 0 0)).1 < 1 ∧
      ∃ res : BsdfResult ℚ Nat,
        dialectricBSDF (cycleEnv ArgOrder.zyx) 1 ⟨9, 9, 9⟩
          (glassHit 2 (1 / 2) ⟨3 / 5, 0, 4 / 5⟩) 0 = some res ∧
        res.continues = true ∧
        res.scattered.rayType = RayType.rayTypeReflected :=
  have h : vecLengthSquared (samplePoint (cycleEnv ArgOrder.zyx)
      (afterRounds (cycleEnv ArgOrder.zyx) 0 0)).1 < 1 := by
    norm_num [afterRounds, samplePoint, cycleEnv, sampleEnv, ArgOrder.place, vecLengthSquared,
      vecSub, vecScale, vecWithPos]
  ⟨h,
    match (dialectricBSDF_total_reflection (cycleEnv ArgOrder.zyx) ⟨0, 0, 0⟩
        (glassHit 2 (1 / 2) ⟨3 / 5, 0, 4 / 5⟩) 0
        (by norm_num [dialectricLocals, glassHit, sampleGlass, sampleHit, sampleMetal, cycleEnv,
          sampleEnv, refract, newRay, vecDot, vecNormalize, vecLength, vecLengthSquared,
          vecNegate])
        (fun s => by simp only [cycleEnv]; split_ifs <;> norm_num)).2.2.2
        (by norm_num [glassHit, sampleGlass]) 0 h with
    | ⟨_, _, res, _, _, hr, hc, hk, _⟩ => ⟨res, hr 0 ⟨9, 9, 9⟩, hc, hk⟩⟩

/-- The value `r0` of `shlick` lies in `[0, 1]` for a positive index of refraction. -/
theorem shlick_r0_bounds (IOR : F) (hior : 0 < IOR) :
    0 ≤ (1 - IOR) / (1 + IOR) * ((1 - IOR) / (1 + IOR)) ∧
      (1 - IOR) / (1 + IOR) * ((1 - IOR) / (1 + IOR)) ≤ 1 := by
  have hpos : 0 < 1 + IOR := by linarith
  have h1 : (1 - IOR) / (1 + IOR) ≤ 1 := (div_le_one hpos).2 (by linarith)
  have h2 : -1 ≤ (1 - IOR) / (1 + IOR) := by
    rw [le_div_iff₀ hpos]; linarith
  refine ⟨mul_self_nonneg _, ?_⟩
  nlinarith [mul_nonneg (sub_nonneg.2 h1) (show 0 ≤ (1 - IOR) / (1 + IOR) + 1 by linarith)]

/-- For a cosine that is not negative `shlick` is at most 1. -/
theorem shlick_le_one (c IOR : F) (hior : 0 < IOR) (hc : 0 ≤ c) : shlick c IOR ≤ 1 := by
  obtain ⟨h0, h1⟩ := shlick_r0_bounds IOR hior
  have ht : (1 - c) ^ 5 ≤ 1 := by
    by_cases hc1 : c ≤ 1
    · exact pow_le_one₀ (by linarith) (by linarith)
    · have e : (1 - c) ^ 5 = (1 - c) ^ 2 * (1 - c) ^ 2 * (1 - c) := by ring
      have : (1 - c) ^ 2 * (1 - c) ^ 2 * (1 - c) ≤ 0 :=
        mul_nonpos_of_nonneg_of_nonpos (mul_nonneg (sq_nonneg _) (sq_nonneg _))
          (by linarith [not_le.mp hc1])
      rw [e]; linarith
  simp only [shlick]
  nlinarith [mul_nonneg (sub_nonneg.2 h1) (sub_nonneg.2 ht)]

/-- For a cosine in `[0, 1]` `shlick` is not negative. -/
theorem shlick_nonneg (c IOR : F) (hior : 0 < IOR) (_hc : 0 ≤ c) (hc1 : c ≤ 1) :
    0 ≤ shlick c IOR := by
  obtain ⟨h0, h1⟩ := shlick_r0_bounds IOR hior
  have ht : 0 ≤ (1 - c) ^ 5 := pow_nonneg (by linarith) 5
  simp only [shlick]
  nlinarith [mul_nonneg (sub_nonneg.2 h1) ht]

/-- The inequality of Cauchy and Schwarz for `struct vector`. -/
theorem vecDot_sq_le (a b : Vector F) :
    vecDot a b * vecDot a b ≤ vecLengthSquared a * vecLengthSquared b := by
  simp only [vecDot, vecLengthSquared]
  nlinarith [sq_nonneg (a.x * b.y - a.y * b.x), sq_nonneg (a.x * b.z - a.z * b.x),
    sq_nonneg (a.y * b.z - a.z * b.y)]

/-- The cosine of the angle between a direction and a unit normal is in `[-1, 1]`. -/
theorem vecDot_le_length (sqrt : F → F) (d n : Vector F) (hn : vecLengthSquared n = 1)
    (hlen : 0 < vecLength sqrt d)
    (hsq : vecLength sqrt d * vecLength sqrt d = vecLengthSquared d) :
    vecDot d n ≤ vecLength sqrt d ∧ -vecLength sqrt d ≤ vecDot d n := by
  have h := vecDot_sq_le d n
  rw [hn, mul_one, ← hsq] at h
  constructor
  · by_contra hc
    nlinarith [not_le.mp hc]
  · by_contra hc
    nlinarith [not_le.mp hc]

/-- C17, the code at a glass with `IOR = 2`, the unit normal `(0, 0, 1)` and the incident
direction `(0, 0, 1)` of a ray that leaves the material along the normal: `refract` succeeds,
`dialectricBSDF` computes the cosine `IOR * 1 = 2` and compares the draw against
`shlick(2, 2) = -7/9`, which is not in `[0, 1]`, so that a draw of 0 already gives the
refracted ray; for the ray that enters the same glass along the normal the cosine is 1 and
the reflection probability is `1/9`. -/
theorem reflectionProbability_negative :
    (0 : ℚ) < (glassHit 2 0 ⟨0, 0, 1⟩).end_.IOR ∧
    vecLengthSquared (glassHit 2 0 ⟨0, 0, 1⟩).surfaceNormal = 1 ∧
    (glassHit 2 0 ⟨0, 0, 1⟩).incident.direction ≠ ⟨0, 0, 0⟩ ∧
    (dialectricLocals sampleEnv ⟨0, 0, 0⟩ (glassHit 2 0 ⟨0, 0, 1⟩)).refractOk = true ∧
    (dialectricLocals sampleEnv ⟨0, 0, 0⟩ (glassHit 2 0 ⟨0, 0, 1⟩)).cosine = 2 ∧
    (dialectricLocals sampleEnv ⟨0, 0, 0⟩ (glassHit 2 0 ⟨0, 0, 1⟩)).reflectionProbability
      = -7 / 9 ∧
    ¬ (0 ≤ (dialectricLocals sampleEnv ⟨0, 0, 0⟩
          (glassHit 2 0 ⟨0, 0, 1⟩)).reflectionProbability ∧
        (dialectricLocals sampleEnv ⟨0, 0, 0⟩
          (glassHit 2 0 ⟨0, 0, 1⟩)).reflectionProbability ≤ 1) ∧
    (dialectricBSDF sampleEnv 0 ⟨0, 0, 0⟩ (glassHit 2 0 ⟨0, 0, 1⟩) 0).map
        (fun res => res.scattered.rayType) = some RayType.rayTypeRefracted ∧
    (dialectricLocals sampleEnv ⟨0, 0, 0⟩ (glassHit 2 0 ⟨0, 0, -1⟩)).cosine = 1 ∧
    (dialectricLocals sampleEnv ⟨0, 0, 0⟩ (glassHit 2 0 ⟨0, 0, -1⟩)).reflectionProbability
      = 1 / 9 := by
  have hp : (dialectricLocals sampleEnv ⟨0, 0, 0⟩
      (glassHit 2 0 ⟨0, 0, 1⟩)).reflectionProbability = -7 / 9 := by
    norm_num [dialectricLocals, glassHit, sampleGlass, sampleHit, sampleMetal, sampleEnv,
      refract, shlick, newRay, vecDot, vecNormalize, vecLength, vecLengthSquared, vecNegate]
  refine ⟨by norm_num [glassHit, sampleGlass], by norm_num [glassHit, sampleHit,
    vecLengthSquared], by decide, ?_, ?_, hp, ?_, ?_, ?_, ?_⟩
  · norm_num [dialectricLocals, glassHit, sampleGlass, sampleHit, sampleMetal, sampleEnv,
      refract, newRay, vecDot, vecNormalize, vecLength, vecLengthSquared, vecNegate]
  · norm_num [dialectricLocals, glassHit, sampleGlass, sampleHit, sampleMetal, sampleEnv,
      refract, newRay, vecDot, vecNormalize, vecLength, vecLengthSquared, vecNegate]
  · rw [hp]; norm_num
  · have hr : ¬ (glassHit 2 0 ⟨0, 0, 1⟩).end_.roughness > 0 := by
      norm_num [glassHit, sampleGlass]
    have hd : ¬ (sampleEnv.rndFloat 0).1 < -7 / 9 := by norm_num [sampleEnv]
    simp only [dialectricBSDF, if_neg hr, hp, Option.map_some', if_neg hd, newRay]
  · norm_num [dialectricLocals, glassHit, sampleGlass, sampleHit, sampleMetal, sampleEnv,
      refract, newRay, vecDot, vecNormalize, vecLength, vecLengthSquared, vecNegate]
  · norm_num [dialectricLocals, glassHit, sampleGlass, sampleHit, sampleMetal, sampleEnv,
      refract, shlick, newRay, vecDot, vecNormalize, vecLength, vecLengthSquared, vecNegate]

/-- Where the reflection probability of `dialectricBSDF` is a probability: for glass with
`IOR > 0`, a unit surface normal and an incident direction that is not zero (its length
positive and the square root exact at its squared length), the cosine computed is not
negative and the reflection probability is at most 1; it is in `[0, 1]` whenever that cosine
is at most 1, which holds for every ray that enters the material and, for a ray that leaves
it, whenever `IOR ≤ 1`. -/
theorem reflectionProbability_bounds (env : Env F R) (garbage : Vector F) (isect : HitRecord F)
    (hior : 0 < isect.end_.IOR)
    (hn : vecLengthSquared isect.surfaceNormal = 1)
    (hlen : 0 < vecLength env.sqrt isect.incident.direction)
    (hsq : vecLength env.sqrt isect.incident.direction *
      vecLength env.sqrt isect.incident.direction = vecLengthSquared isect.incident.direction) :
    0 ≤ (dialectricLocals env garbage isect).cosine ∧
    (dialectricLocals env garbage isect).reflectionProbability ≤ 1 ∧
    ((dialectricLocals env garbage isect).cosine ≤ 1 →
      0 ≤ (dialectricLocals env garbage isect).reflectionProbability) ∧
    (¬ vecDot isect.incident.direction isect.surfaceNormal > 0 →
      (dialectricLocals env garbage isect).cosine ≤ 1 ∧
      0 ≤ (dialectricLocals env garbage isect).reflectionProbability) ∧
    (isect.end_.IOR ≤ 1 →
      (dialectricLocals env garbage isect).cosine ≤ 1 ∧
      0 ≤ (dialectricLocals env garbage isect).reflectionProbability) := by
  obtain ⟨hle, hge⟩ := vecDot_le_length env.sqrt isect.incident.direction isect.surfaceNormal
    hn hlen hsq
  have key : ∀ c : F, 0 ≤ c →
      (dialectricLocals env garbage isect).cosine = c →
      ((dialectricLocals env garbage isect).reflectionProbability = 1 ∨
        (dialectricLocals env garbage isect).reflectionProbability = shlick c isect.end_.IOR) →
      0 ≤ (dialectricLocals env garbage isect).cosine ∧
      (dialectricLocals env garbage isect).reflectionProbability ≤ 1 ∧
      ((dialectricLocals env garbage isect).cosine ≤ 1 →
        0 ≤ (dialectricLocals env garbage isect).reflectionProbability) := by
    intro c hc0 hc hp
    rw [hc]
    rcases hp with hp | hp
    · rw [hp]; exact ⟨hc0, le_rfl, fun _ => zero_le_one⟩
    · rw [hp]; exact ⟨hc0, shlick_le_one c _ hior hc0, fun h => shlick_nonneg c _ hior hc0 h⟩
  by_cases h : vecDot isect.incident.direction isect.surfaceNormal > 0
  · have hc0 : 0 ≤ isect.end_.IOR * vecDot isect.incident.direction isect.surfaceNormal /
        vecLength env.sqrt isect.incident.direction :=
      div_nonneg (mul_nonneg hior.le h.le) hlen.le
    have hfacts : (dialectricLocals env garbage isect).cosine =
          isect.end_.IOR * vecDot isect.incident.direction isect.surfaceNormal /
            vecLength env.sqrt isect.incident.direction ∧
        ((dialectricLocals env garbage isect).reflectionProbability = 1 ∨
          (dialectricLocals env garbage isect).reflectionProbability =
            shlick (isect.end_.IOR * vecDot isect.incident.direction isect.surfaceNormal /
              vecLength env.sqrt isect.incident.direction) isect.end_.IOR) := by
      rw [dialectricLocals_exiting env garbage isect h]
      cases refract env.sqrt isect.incident.direction (vecNegate isect.surfaceNormal)
        isect.end_.IOR <;> simp
    obtain ⟨k1, k2, k3⟩ := key _ hc0 hfacts.1 hfacts.2
    refine ⟨k1, k2, k3, fun hneg => absurd h hneg, fun h1 => ?_⟩
    have hc1 : (dialectricLocals env garbage isect).cosine ≤ 1 := by
      rw [hfacts.1, div_le_one hlen]
      nlinarith [mul_nonneg (sub_nonneg.2 h1) h.le]
    exact ⟨hc1, k3 hc1⟩
  · have hdot : vecDot isect.incident.direction isect.surfaceNormal ≤ 0 := not_lt.mp h
    have hc0 : 0 ≤ -(vecDot isect.incident.direction isect.surfaceNormal /
        vecLength env.sqrt isect.incident.direction) :=
      neg_nonneg.2 (div_nonpos_of_nonpos_of_nonneg hdot hlen.le)
    have hfacts : (dialectricLocals env garbage isect).cosine =
          -(vecDot isect.incident.direction isect.surfaceNormal /
            vecLength env.sqrt isect.incident.direction) ∧
        ((dialectricLocals env garbage isect).reflectionProbability = 1 ∨
          (dialectricLocals env garbage isect).reflectionProbability =
            shlick (-(vecDot isect.incident.direction isect.surfaceNormal /
              vecLength env.sqrt isect.incident.direction)) isect.end_.IOR) := by
      rw [dialectricLocals_entering env garbage isect h]
      cases refract env.sqrt isect.incident.direction isect.surfaceNormal
        (1 / isect.end_.IOR) <;> simp
    obtain ⟨k1, k2, k3⟩ := key _ hc0 hfacts.1 hfacts.2
    have hc1 : (dialectricLocals env garbage isect).cosine ≤ 1 := by
      rw [hfacts.1, ← neg_div, div_le_one hlen]
      linarith
    exact ⟨k1, k2, k3, fun _ => ⟨hc1, k3 hc1⟩, fun _ => ⟨hc1, k3 hc1⟩⟩

end Material

end CRay
